import Mathlib

/-!
Verification of the zwalker Z-machine interpreter (src/zwalker/zmachine.py)
against its natural-language specification.

The Python interpreter is shallowly embedded: machine words are `Nat` values
reduced modulo 2^16 where the source masks with `& 0xFFFF`, memory is a
`List Nat` of byte values, and fallible operations (which raise
`ZMachineError` in the source) return an `Except` result paired with the
machine state.  Python's `x & 0xFFFF` on a (possibly negative) int equals
`x mod 2^16`, and `x & 0xFF` equals `x mod 2^8`; the embedding uses `%` for
these masks.  Out-of-range list reads are modelled as the byte 0 and
out-of-range `List.set` writes as no-ops (the Python original raises
IndexError in both situations); every theorem below either stays in range
or touches no out-of-range address.
-/

namespace ZWalker

/-- Runtime error kinds raised by the interpreter (class ZMachineError;
the spec's tagged error taxonomy). -/
inductive ZErr where
  | staticWrite
  | stackUnderflow
  | divisionByZero
  | moduloByZero
  deriving Repr, DecidableEq

/-- Errors raised while parsing the header at load time (IndexError on an
empty image, struct.error on a short field slice). -/
inductive LoadErr where
  | truncated
  deriving Repr, DecidableEq

/-- Header record, from ZHeader in zmachine.py. -/
structure ZHeader where
  version : Nat
  flags1 : Nat
  release : Nat
  high_memory : Nat
  initial_pc : Nat
  dictionary : Nat
  object_table : Nat
  globals : Nat
  static_memory : Nat
  flags2 : Nat
  serial : String
  abbreviations : Nat
  file_length : Nat
  checksum : Nat
  routines_offset : Nat
  strings_offset : Nat
  deriving Repr, DecidableEq

/-- Call stack frame, from CallFrame in zmachine.py.  `return_pc` is an `Int`
because the machine's program counter is an unconstrained Python int. -/
structure CallFrame where
  return_pc : Int
  locals : List Nat
  num_locals : Nat
  store_var : Option Nat
  stack_depth : Nat
  deriving Repr, DecidableEq

/-- Modelled from the spec: Python's `random.Random` (stdlib, not under
src/).  The spec requires a deterministic PRNG whose state is captured by
`getstate`/`setstate`, where `seed(k)` is a pure function of `k`,
`seed(None)` reseeds from system entropy, and `randint(1, n)` yields a value
in `[1, n]`.  A linear congruential generator realizes that contract; the
particular constants are irrelevant to every theorem below. -/
structure RNG where
  state : Nat
  deriving Repr, DecidableEq

/-- Modelled from the spec: deterministic reseed, `rng.seed(k)` for an int k. -/
def RNG.seedNum (k : Nat) : RNG := ⟨(k + 12345) % 2147483648⟩

/-- Modelled from the spec: `rng.seed(None)` draws fresh system entropy,
which the embedding receives as an explicit input. -/
def RNG.seedEntropy (entropy : Nat) : RNG := ⟨entropy % 2147483648⟩

/-- Modelled from the spec: one LCG step of the generator. -/
def RNG.next (r : RNG) : Nat × RNG :=
  let s := (r.state * 1103515245 + 12345) % 2147483648
  (s, ⟨s⟩)

/-- Modelled from the spec: `rng.randint(1, n)` returns a value in `[1, n]`
(for `n ≥ 1`) and advances the generator state. -/
def RNG.randint1 (r : RNG) (n : Nat) : Nat × RNG :=
  let (x, r2) := r.next
  (1 + x % n, r2)

/-- Defunctionalized pending-input continuation.  The source stores a Python
closure in `pending_input_callback`; the two closures that ever get stored
are `handle_input` (created by the sread/aread opcode, capturing the text
buffer, parse buffer and store variable) and `handle_char` (created by
read_char, capturing the store variable).  This inductive records exactly
the captured data. -/
inductive PendingInput where
  | lineRead (text_buffer parse_buffer : Nat) (store_var : Option Nat)
  | charRead (store_var : Nat)
  deriving Repr, DecidableEq

/-- The interpreter state, from class ZMachine's mutable fields.  The
evaluation stack and call stack keep their top element at the list head
(Python appends/pops at the end of a list; only the order is flipped). -/
structure ZMachine where
  memory : List Nat
  header : ZHeader
  pc : Int
  stack : List Nat
  call_stack : List CallFrame
  locals : List Nat
  output_buffer : String
  running : Bool
  finished : Bool
  waiting_for_input : Bool
  pending_input : Option PendingInput
  rng : RNG
  deriving Repr, DecidableEq

/-- State-and-error monad for the interpreter: a Python method either
returns a value or raises, and in both cases the object keeps the state
mutated so far. -/
def ZM (α : Type) := ZMachine → Except ZErr α × ZMachine

def ZM.pure (a : α) : ZM α := fun m => (Except.ok a, m)

def ZM.bind (x : ZM α) (f : α → ZM β) : ZM β := fun m =>
  match x m with
  | (Except.ok a, m2) => f a m2
  | (Except.error e, m2) => (Except.error e, m2)

instance : Monad ZM where
  pure := ZM.pure
  bind := ZM.bind

def getZ : ZM ZMachine := fun m => (Except.ok m, m)

def setZ (m2 : ZMachine) : ZM Unit := fun _ => (Except.ok (), m2)

/-- Python value & 0xFFFF (mod 2^16). -/
def mask16 (v : Nat) : Nat := v % 65536

/-- Python value & 0xFFFF for a possibly negative int: equals the
nonnegative residue mod 2^16, which Lean's `Int.emod` computes. -/
def mask16I (v : Int) : Nat := (v % 65536).toNat

/-- ZMachine._signed: convert unsigned 16-bit to signed. -/
def signed (val : Nat) : Int :=
  if val > 32767 then (val : Int) - 65536 else (val : Int)

/-- ZMachine.read_byte.  Out-of-range reads are modelled as 0 (see the file
comment). -/
def read_byte (m : ZMachine) (addr : Nat) : Nat := m.memory.getD addr 0

/-- ZMachine.read_word: big-endian 16-bit read. -/
def read_word (m : ZMachine) (addr : Nat) : Nat :=
  (read_byte m addr) <<< 8 ||| read_byte m (addr + 1)

/-- ZMachine.write_byte: guarded by the static-memory boundary, masks the
value to a byte. -/
def write_byte (addr value : Nat) : ZM Unit := fun m =>
  if m.header.static_memory ≤ addr then (Except.error ZErr.staticWrite, m)
  else (Except.ok (), { m with memory := m.memory.set addr (value % 256) })

/-- ZMachine.write_word: the static-memory guard tests only the starting
address; the two byte stores then go to addr and addr+1. -/
def write_word (addr value : Nat) : ZM Unit := fun m =>
  if m.header.static_memory ≤ addr then (Except.error ZErr.staticWrite, m)
  else (Except.ok (),
    { m with memory := (m.memory.set addr ((value >>> 8) % 256)).set (addr + 1) (value % 256) })

/-- ZMachine.push: values are masked to 16 bits on push. -/
def push (value : Nat) : ZM Unit := fun m =>
  (Except.ok (), { m with stack := mask16 value :: m.stack })

/-- ZMachine.pop: raises on an empty evaluation stack. -/
def pop : ZM Nat := fun m =>
  match m.stack with
  | [] => (Except.error ZErr.stackUnderflow, m)
  | v :: rest => (Except.ok v, { m with stack := rest })

/-- ZMachine.get_variable: 0 = stack pop, 1-15 = locals, 16+ = globals. -/
def get_variable (var_num : Nat) : ZM Nat :=
  if var_num = 0 then pop
  else if var_num < 16 then do
    let m ← getZ
    ZM.pure (m.locals.getD (var_num - 1) 0)
  else do
    let m ← getZ
    ZM.pure (read_word m (m.header.globals + (var_num - 16) * 2))

/-- ZMachine.set_variable: masks the value, then 0 = push, 1-15 = locals,
16+ = a global word write (which can hit the static-memory guard). -/
def set_variable (var_num value : Nat) : ZM Unit :=
  let value := mask16 value
  if var_num = 0 then push value
  else if var_num < 16 then fun m =>
    (Except.ok (), { m with locals := m.locals.set (var_num - 1) value })
  else do
    let m ← getZ
    write_word (m.header.globals + (var_num - 16) * 2) value

/-- ZMachine.unpack_address: packed routine/string addresses scale by
version, with the v6/7 routine/string offsets. -/
def unpack_address (m : ZMachine) (packed : Nat) (is_string : Bool) : Nat :=
  let v := m.header.version
  if v ≤ 3 then packed * 2
  else if v ≤ 5 then packed * 4
  else if v = 6 ∨ v = 7 then
    let offset := if is_string then m.header.strings_offset else m.header.routines_offset
    packed * 4 + offset
  else packed * 8

/-- ZMachine._return: pop the top call frame, restore pc and locals,
truncate the evaluation stack to the depth captured at call time, and store
the return value; with an empty call stack the program terminates.  (The
stack keeps its top at the head, so Python's pop-until-depth loop keeps the
`stack_depth` elements deepest in the stack: the last ones here.) -/
def zreturn (value : Nat) : ZM Unit := fun m =>
  match m.call_stack with
  | [] => (Except.ok (), { m with finished := true, running := false })
  | frame :: rest =>
      let m1 := { m with call_stack := rest, pc := frame.return_pc,
                         locals := frame.locals,
                         stack := m.stack.drop (m.stack.length - frame.stack_depth) }
      match frame.store_var with
      | some sv => set_variable sv value m1
      | none => (Except.ok (), m1)

/-- ZMachine._call_routine.  A call to packed address 0 stores 0 (when a
store variable is present) and does nothing else.  Otherwise the routine
header is read, a frame is pushed, locals get their defaults (read from the
routine header for versions ≤ 4) overlaid with the arguments, and the pc
moves to the routine body.  (A routine header declaring more than 16
locals makes the source raise IndexError while filling the 16-slot list;
the model truncates instead — no theorem below calls a nonzero routine.) -/
def call_routine (packed : Nat) (args : List Nat) (store_var : Option Nat) : ZM Unit := do
  if packed = 0 then
    match store_var with
    | some sv => set_variable sv 0
    | none => ZM.pure ()
  else
    let m ← getZ
    let routine_addr := unpack_address m packed false
    let num_locals := read_byte m routine_addr
    let routine_addr := routine_addr + 1
    let frame : CallFrame :=
      { return_pc := m.pc, locals := m.locals, num_locals := num_locals,
        store_var := store_var, stack_depth := m.stack.length }
    -- V1-4: locals have default values in the routine header
    let defaults :=
      if m.header.version ≤ 4 then
        (List.range num_locals).map (fun i => read_word m (routine_addr + 2 * i))
      else List.replicate num_locals 0
    let body_addr :=
      if m.header.version ≤ 4 then routine_addr + 2 * num_locals else routine_addr
    -- copy arguments over the first locals, keep 16 slots like the source
    let withArgs := args.take num_locals ++ defaults.drop (args.take num_locals).length
    let locals16 := (withArgs ++ List.replicate 16 0).take 16
    setZ { m with call_stack := frame :: m.call_stack, locals := locals16,
                  pc := (body_addr : Int) }

/-- ZMachine._read_branch over raw memory: returns ((offset, branch_on_true),
next pc).  One byte gives a 6-bit unsigned offset; two bytes give a signed
14-bit offset; bit 7 of the first byte is the polarity. -/
def read_branch (mem : List Nat) (pc : Nat) : (Int × Bool) × Nat :=
  let branch_byte := mem.getD pc 0
  let branch_on_true := (branch_byte &&& 0x80) ≠ 0
  if (branch_byte &&& 0x40) ≠ 0 then
    (((branch_byte &&& 0x3F : Nat), branch_on_true), pc + 1)
  else
    let offset := ((branch_byte &&& 0x3F) <<< 8) ||| mem.getD (pc + 1) 0
    let offI : Int :=
      if (offset &&& 0x2000) ≠ 0 then (offset : Int) - 0x4000 else (offset : Nat)
    ((offI, branch_on_true), pc + 2)

/-- ZMachine._do_branch: the branch is taken when the condition equals the
polarity; offsets 0 and 1 return false/true from the current routine, any
other offset moves the pc. -/
def do_branch (condition : Bool) (branch_info : Int × Bool) : ZM Unit :=
  let (offset, branch_on_true) := branch_info
  if condition = branch_on_true then
    if offset = 0 then zreturn 0
    else if offset = 1 then zreturn 1
    else fun m => (Except.ok (), { m with pc := m.pc + offset - 2 })
  else ZM.pure ()

/-- ZMachine.save_state: deep copy of the dynamic memory (below the static
boundary), pc, both stacks, locals and the RNG state. -/
structure GameState where
  memory : List Nat
  pc : Int
  stack : List Nat
  call_stack : List CallFrame
  locals : List Nat
  random_state : RNG
  deriving Repr, DecidableEq

def save_state (m : ZMachine) : GameState :=
  { memory := m.memory.take m.header.static_memory, pc := m.pc,
    stack := m.stack, call_stack := m.call_stack, locals := m.locals,
    random_state := m.rng }

/-- ZMachine.restore_state: Python's slice assignment
memory[:static_memory] = s.memory splices s.memory in front of the bytes
from the boundary on; pc, stacks, locals and RNG state are overwritten and
the pending input suspension is cleared. -/
def restore_state (m : ZMachine) (s : GameState) : ZMachine :=
  { m with memory := s.memory ++ m.memory.drop m.header.static_memory,
           pc := s.pc, stack := s.stack, call_stack := s.call_stack,
           locals := s.locals, rng := s.random_state,
           waiting_for_input := false, pending_input := none }

/-- The store value computed by the add opcode in ZMachine.step:
`(signed(ops[0]) + signed(ops[1])) & 0xFFFF`, then stored. -/
def op_add (a b store_var : Nat) : ZM Unit :=
  set_variable store_var (mask16I (signed a + signed b))

/-- The store value computed by the sub opcode in ZMachine.step. -/
def op_sub (a b store_var : Nat) : ZM Unit :=
  set_variable store_var (mask16I (signed a - signed b))

/-- The store value computed by the mul opcode in ZMachine.step. -/
def op_mul (a b store_var : Nat) : ZM Unit :=
  set_variable store_var (mask16I (signed a * signed b))

/-- The random opcode in ZMachine.step: n = signed operand; n ≤ 0 reseeds
(deterministically from |n| when n < 0, from fresh system entropy when
n = 0) and stores 0; n > 0 stores rng.randint(1, n). -/
def op_random (entropy : Nat) (opVal store_var : Nat) : ZM Unit := do
  let n := signed opVal
  if n ≤ 0 then do
    let m ← getZ
    setZ { m with rng := if n < 0 then RNG.seedNum n.natAbs else RNG.seedEntropy entropy }
    set_variable store_var 0
  else do
    let m ← getZ
    let vr := m.rng.randint1 n.toNat
    setZ { m with rng := vr.2 }
    set_variable store_var vr.1

/-- A sequence of random opcodes, each storing to variable 0 (the stack),
as an instruction stream of consecutive random instructions would. -/
def op_random_seq (entropy : Nat) : List Nat → ZM Unit
  | [] => ZM.pure ()
  | op :: rest => do
      op_random entropy op 0
      op_random_seq entropy rest

/-- The values a run of positive random opcodes produces, as a pure
function of the starting RNG state. -/
def random_outputs (r : RNG) : List Nat → List Nat × RNG
  | [] => ([], r)
  | op :: rest =>
      let vr := r.randint1 (signed op).toNat
      let rec2 := random_outputs vr.2 rest
      (mask16 vr.1 :: rec2.1, rec2.2)

/-- ZMachine._parse_header.  An empty image fails on the version byte
(IndexError); every version reads 2-byte fields up to the checksum at
bytes 28-30, so images under 30 bytes fail in struct.unpack; versions 6
and 7 additionally read the packed-address offsets at bytes 0x28-0x2C and
need 44 bytes.  The serial is an ASCII decode with errors ignored, so bytes
over 127 are dropped. -/
def parse_header (data : List Nat) : Except LoadErr ZHeader :=
  if data.length = 0 then Except.error LoadErr.truncated
  else
    let version := data.getD 0 0
    if data.length < 30 then Except.error LoadErr.truncated
    else
      let unpack16 := fun (a : Nat) => data.getD a 0 <<< 8 ||| data.getD (a + 1) 0
      let file_length0 := unpack16 26
      -- file length is stored in version-scaled units
      let file_length :=
        if version ≤ 3 then file_length0 * 2
        else if version ≤ 5 then file_length0 * 4
        else file_length0 * 8
      if (version = 6 ∨ version = 7) ∧ data.length < 44 then Except.error LoadErr.truncated
      else
        Except.ok
          { version := version, flags1 := data.getD 1 0, release := unpack16 2,
            high_memory := unpack16 4, initial_pc := unpack16 6,
            dictionary := unpack16 8, object_table := unpack16 10,
            globals := unpack16 12, static_memory := unpack16 14,
            flags2 := unpack16 16,
            serial := String.mk (((data.drop 18).take 6).filterMap
              (fun b => if b < 128 then some (Char.ofNat b) else none)),
            abbreviations := if 2 ≤ version then unpack16 24 else 0,
            file_length := file_length, checksum := unpack16 28,
            routines_offset := if version = 6 ∨ version = 7 then unpack16 40 * 8 else 0,
            strings_offset := if version = 6 ∨ version = 7 then unpack16 42 * 8 else 0 }

/-- ZMachine.__init__: parse the header, keep the image as memory, place
the pc at the header's initial_pc, clear the stacks and flags, and build a
fresh entropy-seeded RNG. -/
def load_vm (entropy : Nat) (data : List Nat) : Except LoadErr ZMachine :=
  match parse_header data with
  | Except.error e => Except.error e
  | Except.ok header =>
      Except.ok
        { memory := data, header := header, pc := (header.initial_pc : Int),
          stack := [], call_stack := [], locals := List.replicate 16 0,
          output_buffer := "", running := false, finished := false,
          waiting_for_input := false, pending_input := none,
          rng := RNG.seedEntropy entropy }

/-- Alphabet A0 (lowercase), from the class constant. -/
def A0chars : List Char := "abcdefghijklmnopqrstuvwxyz".toList

/-- Alphabet A1 (uppercase), from the class constant. -/
def A1chars : List Char := "ABCDEFGHIJKLMNOPQRSTUVWXYZ".toList

/-- Alphabet A2 for version 1 (space, digits, punctuation; apostrophe,
quote and backslash written by code point). -/
def A2v1chars : List Char :=
  [' ', '0', '1', '2', '3', '4', '5', '6', '7', '8', '9', '.', ',', '!', '?', '_', '#',
   Char.ofNat 39, Char.ofNat 34, '/', Char.ofNat 92, '<', '-', ':', '(', ')']

/-- Alphabet A2 for versions 2+ (newline replaces the `<`). -/
def A2chars : List Char :=
  [' ', Char.ofNat 10, '0', '1', '2', '3', '4', '5', '6', '7', '8', '9', '.', ',', '!',
   '?', '_', '#', Char.ofNat 39, Char.ofNat 34, '/', Char.ofNat 92, '-', ':', '(', ')']

/-- The A2 table used by _encode_word, as byte codes. -/
def a2codes : List Nat := A2chars.map Char.toNat

/-- ASCII lowering of a byte, mirroring str.lower on the ASCII range (the
dictionary only holds ASCII words). -/
def byte_lower (c : Nat) : Nat := if 65 ≤ c ∧ c ≤ 90 then c + 32 else c

/-- Z-characters for one input byte in ZMachine._encode_word: A0 letters
directly, A1 letters behind a shift-4, A2 characters behind a shift-5,
anything else dropped. -/
def char_zchars (c : Nat) : List Nat :=
  if 97 ≤ c ∧ c ≤ 122 then [c - 97 + 6]
  else if 65 ≤ c ∧ c ≤ 90 then [4, c - 65 + 6]
  else
    let i := a2codes.indexOf c
    if i < a2codes.length then [5, i + 6] else []

/-- One packed word of ZMachine._encode_word's output, with the source's
length-conditional padding and the end bit on the last word. -/
def pack_zword (zchars : List Nat) (base : Nat) (last : Bool) : List Nat :=
  let wv :=
    if base + 2 < zchars.length then
      (zchars.getD base 5) <<< 10 ||| (zchars.getD (base + 1) 5) <<< 5 ||| zchars.getD (base + 2) 5
    else if base + 1 < zchars.length then
      (zchars.getD base 5) <<< 10 ||| (zchars.getD (base + 1) 5) <<< 5 ||| 5
    else if base < zchars.length then
      (zchars.getD base 5) <<< 10 ||| (5 <<< 5) ||| 5
    else
      (5 <<< 10) ||| (5 <<< 5) ||| 5
  let wv := if last then wv ||| 0x8000 else wv
  [(wv >>> 8) &&& 0xFF, wv &&& 0xFF]

/-- ZMachine._encode_word on a word given as byte codes: lowercase,
truncate to 6 (v ≤ 3) or 9 source characters, convert to Z-characters,
pad with 5s, and pack into 2 or 3 big-endian words. -/
def encode_word (version : Nat) (word : List Nat) : List Nat :=
  let word := (word.map byte_lower).take (if version ≤ 3 then 6 else 9)
  let max_chars := if version ≤ 3 then 6 else 9
  let zchars := (word.map char_zchars).flatten
  let zchars := zchars ++ List.replicate (max_chars - zchars.length) 5
  let num_words := if version ≤ 3 then 2 else 3
  ((List.range num_words).map
    (fun i => pack_zword zchars (i * 3) (i = num_words - 1))).flatten

/-- The byte-compare loop inside ZMachine._lookup_word: first difference
decides the order, equal prefixes compare equal. -/
def cmp_go (m : ZMachine) (entry_addr : Nat) : List Nat → Nat → Int
  | [], _ => 0
  | e :: rest, i =>
      let d := read_byte m (entry_addr + i)
      if e < d then -1 else if d < e then 1 else cmp_go m entry_addr rest (i + 1)

/-- The binary-search loop of ZMachine._lookup_word.  The interval [lo, hi]
halves every step, so `num_entries + 2` rounds of fuel always suffice; lo
stays ≥ 0, so Lean's truncating `/` agrees with Python's floor `//` on
lo + hi. -/
def bsearch_go (m : ZMachine) (encoded : List Nat) (dict_start entry_len : Nat) :
    Nat → Int → Int → Nat
  | 0, _, _ => 0
  | fuel + 1, lo, hi =>
      if lo ≤ hi then
        let mid := (lo + hi) / 2
        let entry_addr := dict_start + mid.toNat * entry_len
        let c := cmp_go m entry_addr encoded 0
        if c = 0 then entry_addr
        else if c < 0 then bsearch_go m encoded dict_start entry_len fuel lo (mid - 1)
        else bsearch_go m encoded dict_start entry_len fuel (mid + 1) hi
      else 0

/-- ZMachine._lookup_word: encode then binary search; 0 when absent. -/
def lookup_word (m : ZMachine) (word : List Nat) (dict_start entry_len num_entries : Nat) : Nat :=
  bsearch_go m (encode_word m.header.version word) dict_start entry_len
    (num_entries + 2) 0 ((num_entries : Int) - 1)

/-- The index-based word splitter of ZMachine._tokenise: spaces separate,
separator characters both separate and form one-character tokens; each
token carries its starting position. -/
def split_go (seps : List Nat) (text : List Nat) (i word_start : Nat) :
    List (List Nat × Nat) :=
  if h : i < text.length then
    let c := text.getD i 0
    if c = 32 then
      (if word_start < i then [((text.take i).drop word_start, word_start)] else []) ++
        split_go seps text (i + 1) (i + 1)
    else if c ∈ seps then
      (if word_start < i then [((text.take i).drop word_start, word_start)] else []) ++
        ([([c], i)] ++ split_go seps text (i + 1) (i + 1))
    else split_go seps text (i + 1) word_start
  else if word_start < text.length then [(text.drop word_start, word_start)] else []
termination_by text.length - i
decreasing_by all_goals omega

/-- The zero-terminated text read of ZMachine._tokenise for versions ≤ 4.
Fuel `memory.length + 1` always reaches either a 0 byte or the end of
memory (where reads yield the modelled 0). -/
def read_cstring (m : ZMachine) : Nat → Nat → List Nat
  | 0, _ => []
  | fuel + 1, addr =>
      let c := read_byte m addr
      if c = 0 then [] else c :: read_cstring m fuel (addr + 1)

/-- The parse-buffer writing loop of ZMachine._tokenise: one 4-byte record
per token (dictionary address, length, 1-based position for v ≤ 4 or
buffer offset for v ≥ 5). -/
def write_parse_entries (dict_start entry_len num_entries version : Nat) :
    List (List Nat × Nat) → Nat → ZM Unit
  | [], _ => ZM.pure ()
  | (w, pos) :: rest, parse_addr => do
      let m ← getZ
      let dict_entry := lookup_word m w dict_start entry_len num_entries
      write_word parse_addr dict_entry
      write_byte (parse_addr + 2) w.length
      if version ≤ 4 then write_byte (parse_addr + 3) (pos + 1)
      else write_byte (parse_addr + 3) (pos + 2)
      write_parse_entries dict_start entry_len num_entries version rest (parse_addr + 4)

/-- ZMachine._tokenise: read the typed text back from the text buffer, read
the separator set and entry layout from the dictionary header (the entry
count is a signed 16-bit value whose absolute value is used), split into
tokens, and write capped parse records. -/
def tokenise (text_buffer parse_buffer : Nat) : ZM Unit := do
  let m ← getZ
  let text :=
    if m.header.version ≤ 4 then read_cstring m (m.memory.length + 1) (text_buffer + 1)
    else (List.range (read_byte m (text_buffer + 1))).map
      (fun i => read_byte m (text_buffer + 2 + i))
  let dict_addr := m.header.dictionary
  let num_seps := read_byte m dict_addr
  let separators := (List.range num_seps).map (fun i => read_byte m (dict_addr + 1 + i))
  let dict_addr := dict_addr + 1 + num_seps
  let entry_len := read_byte m dict_addr
  let dict_addr := dict_addr + 1
  let num_entries := signed (read_word m dict_addr)
  let dict_addr := dict_addr + 2
  let words := split_go separators text 0 0
  let max_words := read_byte m parse_buffer
  write_byte (parse_buffer + 1) (min words.length max_words)
  write_parse_entries dict_addr entry_len num_entries.natAbs m.header.version
    (words.take max_words) (parse_buffer + 2)

/-- Byte-store loop for the typed characters. -/
def write_chars : List Nat → Nat → ZM Unit
  | [], _ => ZM.pure ()
  | c :: cs, addr => do
      write_byte addr c
      write_chars cs (addr + 1)

/-- ZMachine._process_input: lowercase and truncate the typed line to the
text buffer's capacity byte, store it (0-terminated for v ≤ 4, length-
prefixed for v ≥ 5), then tokenise when a parse buffer was given. -/
def process_input (text : String) (text_buffer parse_buffer : Nat) : ZM Unit := do
  let m ← getZ
  let chars := (text.toLower.toList.map Char.toNat).take (read_byte m text_buffer)
  (if m.header.version ≤ 4 then do
      write_chars chars (text_buffer + 1)
      write_byte (text_buffer + 1 + chars.length) 0
    else do
      write_byte (text_buffer + 1) chars.length
      write_chars chars (text_buffer + 2))
  if parse_buffer ≠ 0 then tokenise text_buffer parse_buffer else ZM.pure ()

/-- The stored input continuations, from the handle_input and handle_char
closures in ZMachine.step: process the line (storing the terminator 13 for
v ≥ 5 reads with a store variable) or store the first character's code
(13 when the text is empty), then clear the suspension. -/
def apply_pending (p : PendingInput) (text : String) : ZM Unit := do
  match p with
  | PendingInput.lineRead tb pb sv => do
      process_input text tb pb
      let m ← getZ
      (match sv with
       | some v => if 5 ≤ m.header.version then set_variable v 13 else ZM.pure ()
       | none => ZM.pure ())
      let m2 ← getZ
      setZ { m2 with waiting_for_input := false, pending_input := none }
  | PendingInput.charRead sv => do
      let char :=
        match text.toList with
        | [] => 13
        | c :: _ => c.toNat
      set_variable sv char
      let m2 ← getZ
      setZ { m2 with waiting_for_input := false, pending_input := none }

/-- ZMachine.send_input: the pending continuation runs only when the VM is
waiting for input and a continuation is registered. -/
def send_input (text : String) : ZM Unit := fun m =>
  match m.waiting_for_input, m.pending_input with
  | true, some p => apply_pending p text m
  | _, _ => (Except.ok (), m)

/-- State of the Z-string decoding state machine in ZMachine.decode_zstring:
current and locked alphabet, pending abbreviation table selector, and the
two-step 10-bit ZSCII escape. -/
structure ZStrState where
  alphabet : Nat
  lock_alphabet : Nat
  abbrev_table : Nat
  zscii_state : Nat
  zscii_high : Nat
  deriving Repr, DecidableEq

def zstr_init : ZStrState := ⟨0, 0, 0, 0, 0⟩

/-- One Z-character of ZMachine.decode_zstring's per-character if-chain.
`Sum.inr` signals an abbreviation expansion (Z-chars 1-3 with a pending
table selector); the caller performs the recursive decode.  All other
cases emit directly. -/
def zchar_step (V : Nat) (c : Nat) (st : ZStrState) : (String × ZStrState) ⊕ ZStrState :=
  if st.zscii_state = 1 then
    Sum.inl ("", { st with zscii_high := c, zscii_state := 2 })
  else if st.zscii_state = 2 then
    let code := (st.zscii_high <<< 5) ||| c
    Sum.inl ((if 0 < code then String.singleton (Char.ofNat code) else ""),
      { st with zscii_state := 0, alphabet := st.lock_alphabet })
  else if 0 < st.abbrev_table then
    Sum.inr { st with abbrev_table := 0, alphabet := st.lock_alphabet }
  else if c = 0 then
    Sum.inl (" ", { st with alphabet := st.lock_alphabet })
  else if c = 1 then
    if V = 1 then Sum.inl ("\n", st)
    else Sum.inl ("", { st with abbrev_table := 1 })
  else if c = 2 then
    if V = 1 then Sum.inl ("", { st with alphabet := (st.alphabet + 1) % 3 })
    else if V = 2 then Sum.inl ("", { st with alphabet := (st.lock_alphabet + 1) % 3 })
    else Sum.inl ("", { st with abbrev_table := 2 })
  else if c = 3 then
    if V = 1 then Sum.inl ("", { st with alphabet := (st.alphabet + 2) % 3 })
    else if V = 2 then Sum.inl ("", { st with alphabet := (st.lock_alphabet + 2) % 3 })
    else Sum.inl ("", { st with abbrev_table := 3 })
  else if c = 4 then
    if V ≤ 2 then
      let lk := (st.lock_alphabet + 1) % 3
      Sum.inl ("", { st with lock_alphabet := lk, alphabet := lk })
    else Sum.inl ("", { st with alphabet := 1 })
  else if c = 5 then
    if V ≤ 2 then
      let lk := (st.lock_alphabet + 2) % 3
      Sum.inl ("", { st with lock_alphabet := lk, alphabet := lk })
    else Sum.inl ("", { st with alphabet := 2 })
  else if c = 6 ∧ st.alphabet = 2 then
    Sum.inl ("", { st with zscii_state := 1 })
  else
    let A2t := if V = 1 then A2v1chars else A2chars
    let emitted :=
      if 6 ≤ c ∧ c ≤ 31 then
        let idx := c - 6
        if st.alphabet = 0 ∧ idx < A0chars.length then String.singleton (A0chars.getD idx ' ')
        else if st.alphabet = 1 ∧ idx < A1chars.length then String.singleton (A1chars.getD idx ' ')
        else if st.alphabet = 2 ∧ idx < A2t.length then String.singleton (A2t.getD idx ' ')
        else ""
      else ""
    Sum.inl (emitted, { st with alphabet := if 3 ≤ V then 0 else st.lock_alphabet })

/-- The word loop of ZMachine.decode_zstring, fueled: `cur` is the word
whose three Z-characters `pending` still holds (its top bit ends the
string once `pending` is spent); abbreviation references decode a fresh
string recursively on one unit of fuel.  `none` means the fuel ran out
(in Python a malformed string keeps the loop running instead). -/
def dz (V A : Nat) (mem : List Nat) :
    Nat → ZStrState → Nat → Nat → List Nat → Option (String × Nat)
  | 0, _, _, _, _ => none
  | fuel + 1, st, addr, cur, [] =>
      if cur &&& 0x8000 ≠ 0 then some ("", addr)
      else
        let w := mem.getD addr 0 <<< 8 ||| mem.getD (addr + 1) 0
        dz V A mem fuel st (addr + 2) w [(w >>> 10) &&& 31, (w >>> 5) &&& 31, w &&& 31]
  | fuel + 1, st, addr, cur, c :: rest =>
      match zchar_step V c st with
      | Sum.inl (s, st2) =>
          (dz V A mem (fuel + 1) st2 addr cur rest).map (fun q => (s ++ q.1, q.2))
      | Sum.inr st2 =>
          if 2 ≤ V ∧ A ≠ 0 then
            let abbr_addr := A + 2 * (32 * (st.abbrev_table - 1) + c)
            let word_addr := mem.getD abbr_addr 0 <<< 8 ||| mem.getD (abbr_addr + 1) 0
            match dz V A mem fuel zstr_init (word_addr * 2) 0 [] with
            | none => none
            | some (s, _) =>
                (dz V A mem (fuel + 1) st2 addr cur rest).map (fun q => (s ++ q.1, q.2))
          else
            dz V A mem (fuel + 1) st2 addr cur rest
termination_by fuel _ _ _ pending => (fuel, pending.length)
decreasing_by all_goals (simp_wf; omega)

/-- ZMachine.decode_zstring at an address, from the initial state. -/
def decode_zstring (V A : Nat) (mem : List Nat) (fuel addr : Nat) : Option (String × Nat) :=
  dz V A mem fuel zstr_init addr 0 []

/-- Decoded operand: a constant or a variable reference, from the
('var', n) tuples the source decoder produces. -/
inductive Operand where
  | const (v : Nat) : Operand
  | var (v : Nat) : Operand
  deriving Repr, DecidableEq

/-- Result of decode_instruction: name, operands, store variable, branch
field and inline text. -/
structure Decoded where
  name : String
  operands : List Operand
  store_var : Option Nat
  branch : Option (Int × Bool)
  text : Option String
  deriving Repr, DecidableEq

/-- The SHORT_0OP table: (name, has_store, has_branch).  The fallback names
unknown opcode numbers (the source formats them in hex) and is unreachable
for the 4-bit opcode numbers the decoder extracts. -/
def short_0op : Nat → String × Bool × Bool
  | 0 => ("rtrue", false, false)
  | 1 => ("rfalse", false, false)
  | 2 => ("print", false, false)
  | 3 => ("print_ret", false, false)
  | 4 => ("nop", false, false)
  | 5 => ("save", false, true)
  | 6 => ("restore", false, true)
  | 7 => ("restart", false, false)
  | 8 => ("ret_popped", false, false)
  | 9 => ("pop", false, false)
  | 10 => ("quit", false, false)
  | 11 => ("new_line", false, false)
  | 12 => ("show_status", false, false)
  | 13 => ("verify", false, true)
  | 14 => ("extended", false, false)
  | 15 => ("piracy", false, true)
  | n => ("0op_" ++ toString n, false, false)

/-- The SHORT_1OP table. -/
def short_1op : Nat → String × Bool × Bool
  | 0 => ("jz", false, true)
  | 1 => ("get_sibling", true, true)
  | 2 => ("get_child", true, true)
  | 3 => ("get_parent", true, false)
  | 4 => ("get_prop_len", true, false)
  | 5 => ("inc", false, false)
  | 6 => ("dec", false, false)
  | 7 => ("print_addr", false, false)
  | 8 => ("call_1s", true, false)
  | 9 => ("remove_obj", false, false)
  | 10 => ("print_obj", false, false)
  | 11 => ("ret", false, false)
  | 12 => ("jump", false, false)
  | 13 => ("print_paddr", false, false)
  | 14 => ("load", true, false)
  | 15 => ("not", true, false)
  | n => ("1op_" ++ toString n, false, false)

/-- The LONG_2OP table (opcode 0 and 0x1D-0x1F are absent in the source
dict and fall back to the unknown-opcode name). -/
def long_2op : Nat → String × Bool × Bool
  | 1 => ("je", false, true)
  | 2 => ("jl", false, true)
  | 3 => ("jg", false, true)
  | 4 => ("dec_chk", false, true)
  | 5 => ("inc_chk", false, true)
  | 6 => ("jin", false, true)
  | 7 => ("test", false, true)
  | 8 => ("or", true, false)
  | 9 => ("and", true, false)
  | 10 => ("test_attr", false, true)
  | 11 => ("set_attr", false, false)
  | 12 => ("clear_attr", false, false)
  | 13 => ("store", false, false)
  | 14 => ("insert_obj", false, false)
  | 15 => ("loadw", true, false)
  | 16 => ("loadb", true, false)
  | 17 => ("get_prop", true, false)
  | 18 => ("get_prop_addr", true, false)
  | 19 => ("get_next_prop", true, false)
  | 20 => ("add", true, false)
  | 21 => ("sub", true, false)
  | 22 => ("mul", true, false)
  | 23 => ("div", true, false)
  | 24 => ("mod", true, false)
  | 25 => ("call_2s", true, false)
  | 26 => ("call_2n", false, false)
  | 27 => ("set_colour", false, false)
  | 28 => ("throw", false, false)
  | n => ("2op_" ++ toString n, false, false)

/-- The VAR_VAR table. -/
def var_var_ops : Nat → String × Bool × Bool
  | 0 => ("call", true, false)
  | 1 => ("storew", false, false)
  | 2 => ("storeb", false, false)
  | 3 => ("put_prop", false, false)
  | 4 => ("sread", false, false)
  | 5 => ("print_char", false, false)
  | 6 => ("print_num", false, false)
  | 7 => ("random", true, false)
  | 8 => ("push", false, false)
  | 9 => ("pull", false, false)
  | 10 => ("split_window", false, false)
  | 11 => ("set_window", false, false)
  | 12 => ("call_vs2", true, false)
  | 13 => ("erase_window", false, false)
  | 14 => ("erase_line", false, false)
  | 15 => ("set_cursor", false, false)
  | 16 => ("get_cursor", false, false)
  | 17 => ("set_text_style", false, false)
  | 18 => ("buffer_mode", false, false)
  | 19 => ("output_stream", false, false)
  | 20 => ("input_stream", false, false)
  | 21 => ("sound_effect", false, false)
  | 22 => ("read_char", true, false)
  | 23 => ("scan_table", true, true)
  | 24 => ("not", true, false)
  | 25 => ("call_vn", false, false)
  | 26 => ("call_vn2", false, false)
  | 27 => ("tokenise", false, false)
  | 28 => ("encode_text", false, false)
  | 29 => ("copy_table", false, false)
  | 30 => ("print_table", false, false)
  | 31 => ("check_arg_count", false, true)
  | n => ("var_" ++ toString n, false, false)

/-- The EXTENDED table. -/
def extended_ops : Nat → String × Bool × Bool
  | 0 => ("save", true, false)
  | 1 => ("restore", true, false)
  | 2 => ("log_shift", true, false)
  | 3 => ("art_shift", true, false)
  | 4 => ("set_font", true, false)
  | 9 => ("save_undo", true, false)
  | 10 => ("restore_undo", true, false)
  | 11 => ("print_unicode", false, false)
  | 12 => ("check_unicode", true, false)
  | n => ("ext_" ++ toString n, false, false)

/-- ZMachine._read_operands_from_types: two type bits per operand, high
bits first; type 3 (omitted) ends the list early. -/
def read_ops_go (mem : List Nat) (types_byte : Nat) : Nat → Nat → Nat → List Operand × Nat
  | _, 0, pc => ([], pc)
  | i, rem + 1, pc =>
      let op_type := (types_byte >>> (6 - i * 2)) &&& 0x03
      if op_type = 3 then ([], pc)
      else if op_type = 0 then
        let v := mem.getD pc 0 <<< 8 ||| mem.getD (pc + 1) 0
        let rest := read_ops_go mem types_byte (i + 1) rem (pc + 2)
        (Operand.const v :: rest.1, rest.2)
      else if op_type = 1 then
        let rest := read_ops_go mem types_byte (i + 1) rem (pc + 1)
        (Operand.const (mem.getD pc 0) :: rest.1, rest.2)
      else
        let rest := read_ops_go mem types_byte (i + 1) rem (pc + 1)
        (Operand.var (mem.getD pc 0) :: rest.1, rest.2)

def read_operands_from_types (mem : List Nat) (types_byte count pc : Nat) :
    List Operand × Nat :=
  read_ops_go mem types_byte 0 count pc

/-- ZMachine._decode_short over raw memory (pc points just past the opcode
byte).  The single operand's kind comes from bits 4-5 of the opcode byte;
print/print_ret decode their inline text (fuel as in decode_zstring);
then the three version-dependent reassignments are applied in the source's
order before the store byte and branch field are read. -/
def decode_short (V A : Nat) (mem : List Nat) (pc opcode : Nat) : Option (Decoded × Nat) :=
  let op_type := (opcode >>> 4) &&& 0x03
  let opnum := opcode &&& 0x0F
  let opc :=
    if op_type = 3 then (([] : List Operand), pc)
    else if op_type = 0 then
      ([Operand.const (mem.getD pc 0 <<< 8 ||| mem.getD (pc + 1) 0)], pc + 2)
    else if op_type = 1 then ([Operand.const (mem.getD pc 0)], pc + 1)
    else ([Operand.var (mem.getD pc 0)], pc + 1)
  let info := if op_type = 3 then short_0op opnum else short_1op opnum
  match (if info.1 = "print" ∨ info.1 = "print_ret" then
           (decode_zstring V A mem (mem.length + 1) opc.2).map (fun p => (some p.1, p.2))
         else some ((none : Option String), opc.2)) with
  | none => none
  | some tpc =>
      -- V4+ 0OP save/restore store instead of branching
      let store_branch :=
        if op_type = 3 ∧ (opnum = 5 ∨ opnum = 6) ∧ 4 ≤ V then (true, false)
        else (info.2.1, info.2.2)
      -- V5+ 1OP:0F is call_1n (no store) instead of not
      let name_store :=
        if op_type ≠ 3 ∧ opnum = 15 ∧ 5 ≤ V then ("call_1n", false)
        else (info.1, store_branch.1)
      -- V5+ 0OP:09 is catch (store) instead of pop
      let name_store :=
        if op_type = 3 ∧ opnum = 9 ∧ 5 ≤ V then ("catch", true) else name_store
      let svpc :=
        if name_store.2 then ((some (mem.getD tpc.2 0) : Option Nat), tpc.2 + 1)
        else (none, tpc.2)
      let brpc :=
        if store_branch.2 then
          let rb := read_branch mem svpc.2
          ((some rb.1 : Option (Int × Bool)), rb.2)
        else (none, svpc.2)
      some ({ name := name_store.1, operands := opc.1, store_var := svpc.1,
              branch := brpc.1, text := tpc.1 }, brpc.2)

/-- ZMachine._decode_var_var over raw memory (pc points at the operand
types byte): up to 4 operands, 8 for the two double-types call variants,
with the v5+ sread-to-aread reassignment before store/branch reads. -/
def decode_var_var (V : Nat) (mem : List Nat) (pc opnum : Nat) : Decoded × Nat :=
  let types_byte := mem.getD pc 0
  let r1 := read_operands_from_types mem types_byte 4 (pc + 1)
  let r2 :=
    if (opnum = 12 ∨ opnum = 26) ∧ r1.1.length = 4 then
      let types_byte2 := mem.getD r1.2 0
      let e := read_operands_from_types mem types_byte2 4 (r1.2 + 1)
      (r1.1 ++ e.1, e.2)
    else r1
  let info := var_var_ops opnum
  -- V5+: VAR:04 is aread (store) instead of sread
  let name_store :=
    if opnum = 4 ∧ 5 ≤ V then ("aread", true) else (info.1, info.2.1)
  let svpc :=
    if name_store.2 then ((some (mem.getD r2.2 0) : Option Nat), r2.2 + 1)
    else (none, r2.2)
  let brpc :=
    if info.2.2 then
      let rb := read_branch mem svpc.2
      ((some rb.1 : Option (Int × Bool)), rb.2)
    else (none, svpc.2)
  ({ name := name_store.1, operands := r2.1, store_var := svpc.1,
     branch := brpc.1, text := none }, brpc.2)

namespace ObjTree

/-- Abstraction of the object table stored in memory.  In the source,
_get_object_address(o) yields an address exactly for 1 ≤ o ≤ n: o = 0 and
o > max_obj are rejected explicitly, and the memory-bounds check (the
record must fit below the end of memory, at an address linear in o) caps
the rest, so the valid ids form a contiguous range 1..n.  Each record's
parent/sibling/child field occupies its own byte (v ≤ 3) or word (v ≥ 4)
at an address distinct from every other field, so the table is three maps
indexed by object id.  Ids fit the stored field width (≤ 255 objects for
v ≤ 3, ≤ 65535 for v ≥ 4), so the byte/word truncation in the raw writes
is the identity, and the object table lives in dynamic memory, so the
static-memory write guard does not fire. -/
structure ObjTable where
  n : Nat
  parent : Nat → Nat
  sibling : Nat → Nat
  child : Nat → Nat

/-- ZMachine.get_object_parent: 0 for an invalid id. -/
def getParent (t : ObjTable) (o : Nat) : Nat :=
  if 1 ≤ o ∧ o ≤ t.n then t.parent o else 0

/-- ZMachine.get_object_sibling: 0 for an invalid id. -/
def getSibling (t : ObjTable) (o : Nat) : Nat :=
  if 1 ≤ o ∧ o ≤ t.n then t.sibling o else 0

/-- ZMachine.get_object_child: 0 for an invalid id. -/
def getChild (t : ObjTable) (o : Nat) : Nat :=
  if 1 ≤ o ∧ o ≤ t.n then t.child o else 0

/-- ZMachine.set_object_parent: no-op for an invalid id. -/
def setParent (t : ObjTable) (o v : Nat) : ObjTable :=
  if 1 ≤ o ∧ o ≤ t.n then { t with parent := Function.update t.parent o v } else t

/-- ZMachine.set_object_sibling: no-op for an invalid id. -/
def setSibling (t : ObjTable) (o v : Nat) : ObjTable :=
  if 1 ≤ o ∧ o ≤ t.n then { t with sibling := Function.update t.sibling o v } else t

/-- ZMachine.set_object_child: no-op for an invalid id. -/
def setChild (t : ObjTable) (o v : Nat) : ObjTable :=
  if 1 ≤ o ∧ o ≤ t.n then { t with child := Function.update t.child o v } else t

/-- The sibling chain followed from `o`, cut off by fuel (a well-formed
chain of distinct valid ids has length ≤ n, so fuel n+1 never cuts). -/
def chainF (t : ObjTable) : Nat → Nat → List Nat
  | 0, _ => []
  | fuel + 1, o => if o = 0 then [] else o :: chainF t fuel (getSibling t o)

/-- The child chain of object r: the sibling chain from its first child. -/
def chainOf (t : ObjTable) (r : Nat) : List Nat :=
  chainF t (t.n + 1) (getChild t r)

/-- Well-formedness of the object forest: every valid object's parent link
is 0 or valid; chain members are valid; and each valid object occurs in
the child chain of exactly its parent, exactly once (and in no chain when
its parent is 0). -/
def WF (t : ObjTable) : Prop :=
  (∀ o < t.n + 1, 1 ≤ o →
    getParent t o = 0 ∨ (1 ≤ getParent t o ∧ getParent t o ≤ t.n)) ∧
  (∀ r < t.n + 1, 1 ≤ r → ∀ x ∈ chainOf t r, 1 ≤ x ∧ x ≤ t.n) ∧
  (∀ o < t.n + 1, 1 ≤ o → ∀ r < t.n + 1, 1 ≤ r →
    (chainOf t r).count o = if getParent t o = r then 1 else 0)

instance (t : ObjTable) : Decidable (WF t) := by
  unfold WF; infer_instance

/-- The predecessor walk in ZMachine.remove_object: follow sibling links
from the parent's first child until the link to `obj` is found (or the
chain ends at 0). -/
def findPrev (t : ObjTable) (obj : Nat) : Nat → Nat → Nat
  | 0, prev => prev
  | fuel + 1, prev =>
      if prev ≠ 0 ∧ getSibling t prev ≠ obj then findPrev t obj fuel (getSibling t prev)
      else prev

/-- ZMachine.remove_object: unlink obj from its parent's child chain (head
case or predecessor splice), then clear its parent and sibling links. -/
def removeObject (t : ObjTable) (obj : Nat) : ObjTable :=
  let parent := getParent t obj
  if parent = 0 then t
  else
    let t1 :=
      if getChild t parent = obj then setChild t parent (getSibling t obj)
      else
        let prev := findPrev t obj (t.n + 1) (getChild t parent)
        if prev ≠ 0 then setSibling t prev (getSibling t obj) else t
    let t2 := setParent t1 obj 0
    setSibling t2 obj 0

/-- ZMachine.insert_object: detach obj, then (for dest ≠ 0) relink it as
dest's first child. -/
def insertObject (t : ObjTable) (obj dest : Nat) : ObjTable :=
  let t1 := removeObject t obj
  if dest = 0 then t1
  else
    let old_child := getChild t1 dest
    let t2 := setParent t1 obj dest
    let t3 := setSibling t2 obj old_child
    setChild t3 dest obj

/-- One tree operation of the claimed sequence. -/
inductive TreeOp where
  | ins (obj dest : Nat)
  | rem (obj : Nat)
  deriving Repr, DecidableEq

def applyOp (t : ObjTable) : TreeOp → ObjTable
  | TreeOp.ins obj dest => insertObject t obj dest
  | TreeOp.rem obj => removeObject t obj

def applyOps (t : ObjTable) : List TreeOp → ObjTable
  | [] => t
  | op :: rest => applyOps (applyOp t op) rest

/-- The amended claim's restriction: inserted objects must be valid ids and
destinations 0 or valid; removals are unrestricted. -/
def validOp (n : Nat) : TreeOp → Prop
  | TreeOp.ins obj dest => (1 ≤ obj ∧ obj ≤ n) ∧ (dest = 0 ∨ (1 ≤ dest ∧ dest ≤ n))
  | TreeOp.rem _ => True

instance (n : Nat) (op : TreeOp) : Decidable (validOp n op) := by
  unfold validOp; cases op <;> infer_instance

/-- Exact sibling paths: SibPath t s l says the sibling chain from s is
exactly l, ending at the null id 0. -/
inductive SibPath (t : ObjTable) : Nat → List Nat → Prop where
  | nil : SibPath t 0 []
  | cons {o : Nat} {l : List Nat} (ho : o ≠ 0) (h : SibPath t (getSibling t o) l) :
      SibPath t o (o :: l)

/-- Demonstration table for the C2 counterexample and witness: two
objects, object 2 the only child of object 1. -/
def demoTable : ObjTable :=
  { n := 2,
    parent := fun o => if o = 2 then 1 else 0,
    sibling := fun _ => 0,
    child := fun o => if o = 1 then 2 else 0 }

end ObjTree

/-- Fixed machine used for concrete witnesses: version-3 header with a
chosen static-memory boundary and globals base, empty stacks. -/
def testHeader (static : Nat) : ZHeader :=
  { version := 3, flags1 := 0, release := 0, high_memory := 0, initial_pc := 0,
    dictionary := 0, object_table := 0, globals := 100, static_memory := static,
    flags2 := 0, serial := "", abbreviations := 0, file_length := 0, checksum := 0,
    routines_offset := 0, strings_offset := 0 }

def testMachine (static : Nat) (mem : List Nat) : ZMachine :=
  { memory := mem, header := testHeader static, pc := 0, stack := [],
    call_stack := [], locals := List.replicate 16 0, output_buffer := "",
    running := false, finished := false, waiting_for_input := false,
    pending_input := none, rng := ⟨0⟩ }

lemma signed_emod (a : Nat) : signed a % 65536 = (a : Int) % 65536 := by
  unfold signed; split <;> omega

lemma mask16I_lt (x : Int) : mask16I x < 65536 := by
  unfold mask16I; omega

lemma mask16_mask16I (x : Int) : mask16 (mask16I x) = mask16I x := by
  unfold mask16 mask16I; omega

lemma mask16I_add (a b : Nat) (_ha : a < 65536) (_hb : b < 65536) :
    mask16I (signed a + signed b) = (a + b) % 65536 := by
  unfold mask16I signed; split <;> split <;> omega

lemma mask16I_sub (a b : Nat) (_ha : a < 65536) (_hb : b < 65536) :
    mask16I (signed a - signed b) = (a + (65536 - b)) % 65536 := by
  unfold mask16I signed; split <;> split <;> omega

lemma mask16I_mul (a b : Nat) :
    mask16I (signed a * signed b) = (a * b) % 65536 := by
  unfold mask16I
  rw [Int.mul_emod, signed_emod, signed_emod, ← Int.mul_emod]
  omega

/-- Storing through variable 0 pushes the masked value onto the evaluation
stack. -/
lemma set_variable_zero (v : Nat) (m : ZMachine) :
    set_variable 0 v m = (Except.ok (), { m with stack := mask16 (mask16 v) :: m.stack }) := by
  simp [set_variable, push]

/-- C1 (amended): a `write_byte` or `write_word` whose target address is at
or above the static-memory boundary raises the static-memory-write error
and leaves the machine (hence every byte of memory) unchanged; `write_byte`
never mutates any byte at an address ≥ the boundary; `write_word` checks
only its starting address, so an accepted word write can touch a byte at an
address ≥ the boundary only as its second byte, i.e. only when it starts
exactly at the boundary − 1. -/
theorem static_memory_write_guard (m : ZMachine) (addr v a : Nat)
    (hs : m.header.static_memory ≤ addr) :
    (write_byte addr v m = (Except.error ZErr.staticWrite, m) ∧
     write_word addr v m = (Except.error ZErr.staticWrite, m)) ∧
    (∀ addr2 v2, m.header.static_memory ≤ a →
      (write_byte addr2 v2 m).2.memory.getD a 0 = m.memory.getD a 0) ∧
    (∀ addr2 v2, m.header.static_memory ≤ a → addr2 + 1 ≠ a →
      (write_word addr2 v2 m).2.memory.getD a 0 = m.memory.getD a 0) := by
  refine ⟨⟨?_, ?_⟩, ?_, ?_⟩
  · simp [write_byte, hs]
  · simp [write_word, hs]
  · intro addr2 v2 hA
    unfold write_byte
    split
    · rfl
    · rename_i hlt
      have hne : addr2 ≠ a := by omega
      simp [List.getD, List.getElem?_set_ne hne]
  · intro addr2 v2 hA hne1
    unfold write_word
    split
    · rfl
    · rename_i hlt
      have hne : addr2 ≠ a := by omega
      simp [List.getD, List.getElem?_set_ne hne, List.getElem?_set_ne hne1]

/-- Witness for the C1 theorem at a concrete machine: boundary 4, writes at
address 4 rejected, and no accepted write reaches index 5. -/
theorem static_memory_write_guard_witness :
    (4 : Nat) ≤ (testMachine 4 [9, 9, 9, 9, 9, 9]).header.static_memory ∧
    write_byte 4 7 (testMachine 4 [9, 9, 9, 9, 9, 9]) =
      (Except.error ZErr.staticWrite, testMachine 4 [9, 9, 9, 9, 9, 9]) :=
  ⟨by decide, (static_memory_write_guard (testMachine 4 [9, 9, 9, 9, 9, 9]) 4 7 5
      (by decide)).1.1⟩

/-- Counterexample to C1 as stated: with the static boundary at 4, the word
write starting at address 3 is accepted and mutates the byte at address 4
(the second byte of the word), so a byte at an address ≥ static_memory is
mutated without a static-memory-write error. -/
theorem static_memory_write_counterexample :
    (write_word 3 258 (testMachine 4 [9, 9, 9, 9, 9, 9])).1 = Except.ok () ∧
    (write_word 3 258 (testMachine 4 [9, 9, 9, 9, 9, 9])).2.memory.getD 4 0 = 2 ∧
    (testMachine 4 [9, 9, 9, 9, 9, 9]).memory.getD 4 0 = 9 := by
  refine ⟨rfl, by decide, by decide⟩

/-- C6: add, sub and mul interpret their operands as signed two's-complement
16-bit values, compute the exact integer result, and store it masked to an
unsigned 16-bit word; the masked signed result coincides with the unsigned
computation mod 2^16, and at the boundaries add(32767, 1) stores 32768
(which reads back as −32768 signed) and sub(−32768, 1) (operand word 32768)
stores 32767. -/
theorem arith_signed_wraparound (a b : Nat) (m : ZMachine)
    (ha : a < 65536) (hb : b < 65536) :
    (op_add a b 0 m =
        (Except.ok (), { m with stack := (a + b) % 65536 :: m.stack }) ∧
      mask16I (signed a + signed b) = (a + b) % 65536) ∧
    (op_sub a b 0 m =
        (Except.ok (), { m with stack := (a + (65536 - b)) % 65536 :: m.stack }) ∧
      mask16I (signed a - signed b) = (a + (65536 - b)) % 65536) ∧
    (op_mul a b 0 m =
        (Except.ok (), { m with stack := (a * b) % 65536 :: m.stack }) ∧
      mask16I (signed a * signed b) = (a * b) % 65536) ∧
    mask16I (signed 32767 + signed 1) = 32768 ∧
    signed 32768 = -32768 ∧
    mask16I (signed 32768 - signed 1) = 32767 := by
  refine ⟨⟨?_, mask16I_add a b ha hb⟩, ⟨?_, mask16I_sub a b ha hb⟩,
    ⟨?_, mask16I_mul a b⟩, by decide, by decide, by decide⟩
  · rw [op_add, set_variable_zero, mask16_mask16I, mask16_mask16I, mask16I_add a b ha hb]
  · rw [op_sub, set_variable_zero, mask16_mask16I, mask16_mask16I, mask16I_sub a b ha hb]
  · rw [op_mul, set_variable_zero, mask16_mask16I, mask16_mask16I, mask16I_mul a b]

/-- Witness for the C6 theorem at the claim's own boundary values. -/
theorem arith_signed_wraparound_witness :
    (32767 : Nat) < 65536 ∧ (1 : Nat) < 65536 ∧
    mask16I (signed 32767 + signed 1) = (32767 + 1) % 65536 :=
  ⟨by decide, by decide,
    (arith_signed_wraparound 32767 1 (testMachine 0 []) (by decide) (by decide)).1.2⟩

lemma mask16_idem (v : Nat) : mask16 (mask16 v) = mask16 v := by
  unfold mask16; omega

lemma zm_bind_eq (x : ZM α) (f : α → ZM β) : x >>= f = ZM.bind x f := rfl

lemma zm_bind_ok {α β : Type} {x : ZM α} {f : α → ZM β} {m m2 : ZMachine} {a : α}
    (hx : x m = (Except.ok a, m2)) : ZM.bind x f m = f a m2 := by
  unfold ZM.bind; rw [hx]

lemma zm_pure_eq (a : α) : (Pure.pure a : ZM α) = ZM.pure a := rfl

/-- The random opcode with a positive operand: one randint draw, pushed. -/
lemma op_random_pos (e op : Nat) (m : ZMachine) (h : 0 < signed op) :
    op_random e op 0 m =
      (Except.ok (), { m with rng := (m.rng.randint1 (signed op).toNat).2,
                              stack := mask16 (m.rng.randint1 (signed op).toNat).1 :: m.stack }) := by
  have hn : ¬ signed op ≤ 0 := by omega
  simp [op_random, hn, zm_bind_eq, ZM.bind, getZ, setZ, set_variable, push, mask16_idem]

/-- The random opcode with a nonpositive operand: reseed and store 0. -/
lemma op_random_nonpos (e op : Nat) (m : ZMachine) (h : signed op ≤ 0) :
    op_random e op 0 m =
      (Except.ok (), { m with
        rng := if signed op < 0 then RNG.seedNum (signed op).natAbs
               else RNG.seedEntropy e,
        stack := 0 :: m.stack }) := by
  simp [op_random, h, zm_bind_eq, ZM.bind, getZ, setZ, set_variable, push]
  rfl

lemma random_outputs_length (r : RNG) (ops : List Nat) :
    (random_outputs r ops).1.length = ops.length := by
  induction ops generalizing r with
  | nil => rfl
  | cons op rest ih => simp [random_outputs, ih]

/-- A run of positive random opcodes pushes exactly the outputs determined
by the starting RNG state, newest on top. -/
lemma op_random_seq_spec (e : Nat) (ops : List Nat) (m : ZMachine)
    (hpos : ∀ k ∈ ops, 0 < signed k) :
    op_random_seq e ops m =
      (Except.ok (), { m with rng := (random_outputs m.rng ops).2,
                              stack := (random_outputs m.rng ops).1.reverse ++ m.stack }) := by
  induction ops generalizing m with
  | nil => simp [op_random_seq, ZM.pure, random_outputs]
  | cons op rest ih =>
      have hop : 0 < signed op := hpos op (List.mem_cons_self op rest)
      have hrest : ∀ k ∈ rest, 0 < signed k := fun k hk => hpos k (List.mem_cons_of_mem op hk)
      show ZM.bind (op_random e op 0) (fun _ => op_random_seq e rest) m = _
      rw [zm_bind_ok (op_random_pos e op m hop)]
      rw [ih _ hrest]
      simp [random_outputs, List.reverse_cons, List.append_assoc]

/-- C7: random with a positive signed operand stores one randint(1, n) draw
(a value in [1, n]); with operand 0 it reseeds from system entropy and
stores 0; with a negative operand it reseeds deterministically from |n|, so
two machines that execute the same negative reseed and then the same
sequence of positive random opcodes produce identical stored results and
identical final RNG states. -/
theorem random_opcode_semantics (e opVal : Nat) (m : ZMachine)
    (hop : opVal < 65536) :
    (0 < signed opVal →
      op_random e opVal 0 m =
        (Except.ok (), { m with rng := (m.rng.randint1 (signed opVal).toNat).2,
                                stack := (m.rng.randint1 (signed opVal).toNat).1 :: m.stack }) ∧
      1 ≤ (m.rng.randint1 (signed opVal).toNat).1 ∧
      ((m.rng.randint1 (signed opVal).toNat).1 : Int) ≤ signed opVal) ∧
    (signed opVal = 0 →
      op_random e opVal 0 m =
        (Except.ok (), { m with rng := RNG.seedEntropy e, stack := 0 :: m.stack })) ∧
    (signed opVal < 0 →
      (op_random e opVal 0 m).2.rng = RNG.seedNum (signed opVal).natAbs ∧
      ∀ (m2 : ZMachine) (ops : List Nat), (∀ k ∈ ops, 0 < signed k) →
        (op_random_seq e ops (op_random e opVal 0 m).2).2.stack.take ops.length =
          (op_random_seq e ops (op_random e opVal 0 m2).2).2.stack.take ops.length ∧
        (op_random_seq e ops (op_random e opVal 0 m).2).2.rng =
          (op_random_seq e ops (op_random e opVal 0 m2).2).2.rng) := by
  refine ⟨?_, ?_, ?_⟩
  · intro h
    have hn : 0 < (signed opVal).toNat := by omega
    have hval : (m.rng.randint1 (signed opVal).toNat).1 =
        1 + (m.rng.next.1) % (signed opVal).toNat := rfl
    have hle : (m.rng.randint1 (signed opVal).toNat).1 ≤ (signed opVal).toNat := by
      rw [hval]
      have := Nat.mod_lt (m.rng.next.1) hn
      omega
    have hlt : (m.rng.randint1 (signed opVal).toNat).1 < 65536 := by
      have hs : signed opVal ≤ 32767 := by
        unfold signed; split <;> omega
      omega
    have hmask : mask16 (m.rng.randint1 (signed opVal).toNat).1 =
        (m.rng.randint1 (signed opVal).toNat).1 := Nat.mod_eq_of_lt hlt
    have hcast : ((signed opVal).toNat : Int) = signed opVal :=
      Int.toNat_of_nonneg (le_of_lt h)
    have h3 : ((m.rng.randint1 (signed opVal).toNat).1 : Int) ≤ signed opVal := by
      rw [← hcast]; exact_mod_cast hle
    refine ⟨?_, by rw [hval]; omega, h3⟩
    rw [op_random_pos e opVal m h, hmask]
  · intro h
    rw [op_random_nonpos e opVal m (le_of_eq h)]
    simp [h]
  · intro h
    have hle : signed opVal ≤ 0 := le_of_lt h
    have hrng : ∀ mm : ZMachine,
        (op_random e opVal 0 mm).2 =
          { mm with rng := RNG.seedNum (signed opVal).natAbs, stack := 0 :: mm.stack } := by
      intro mm
      rw [op_random_nonpos e opVal mm hle]
      simp [h]
    refine ⟨by rw [hrng m], ?_⟩
    intro m2 ops hpos
    rw [hrng m, hrng m2,
      op_random_seq_spec e ops _ hpos, op_random_seq_spec e ops _ hpos]
    constructor
    · have hlen : ∀ (s : List Nat),
          ((random_outputs (RNG.seedNum (signed opVal).natAbs) ops).1.reverse ++ s).take
              ops.length =
            (random_outputs (RNG.seedNum (signed opVal).natAbs) ops).1.reverse := by
        intro s
        refine List.take_left' ?_
        rw [List.length_reverse, random_outputs_length]
      simp only []
      rw [hlen, hlen]
    · rfl

/-- Witness for the C7 theorem: operand 3 on the test machine stores a
value in [1, 3]. -/
theorem random_opcode_semantics_witness :
    0 < signed 3 ∧ (3 : Nat) < 65536 ∧
    1 ≤ ((testMachine 0 []).rng.randint1 (signed 3).toNat).1 ∧
    (((testMachine 0 []).rng.randint1 (signed 3).toNat).1 : Int) ≤ signed 3 :=
  ⟨by decide, by decide,
    ((random_opcode_semantics 0 3 (testMachine 0 []) (by decide)).1 (by decide)).2.1,
    ((random_opcode_semantics 0 3 (testMachine 0 []) (by decide)).1 (by decide)).2.2⟩

/-- C8 (amended): loading fails before any instruction executes exactly
when the image is too short for the header fields actually parsed — under
30 bytes for every version (the checksum field ends at byte 30), or under
44 bytes for versions 6 and 7 (the packed-address offsets end at byte 44).
The version byte is never otherwise validated: any version value, including
values outside 1..8, yields a loaded VM, and images of 30-63 bytes also
load even though the full header is 64 bytes. -/
theorem load_rejects_short_headers (entropy : Nat) (data : List Nat) :
    (data.length < 30 → load_vm entropy data = Except.error LoadErr.truncated) ∧
    (30 ≤ data.length → (data.getD 0 0 = 6 ∨ data.getD 0 0 = 7) → data.length < 44 →
      load_vm entropy data = Except.error LoadErr.truncated) ∧
    (30 ≤ data.length → data.getD 0 0 ≠ 6 → data.getD 0 0 ≠ 7 →
      ∃ vm, load_vm entropy data = Except.ok vm ∧
        vm.header.version = data.getD 0 0 ∧ vm.pc = (vm.header.initial_pc : Int)) ∧
    ((data.getD 0 0 = 6 ∨ data.getD 0 0 = 7) → 44 ≤ data.length →
      ∃ vm, load_vm entropy data = Except.ok vm) := by
  refine ⟨?_, ?_, ?_, ?_⟩
  · intro hshort
    unfold load_vm parse_header
    by_cases h0 : data.length = 0
    · simp [h0]
    · simp [h0, hshort]
  · intro hlen hv hshort
    have h0 : ¬ data.length = 0 := by omega
    have hns : ¬ data.length < 30 := by omega
    simp only [List.getD, List.get?_eq_getElem?] at hv
    unfold load_vm parse_header
    simp [h0, hns, hshort, hv]
  · intro hlen h6 h7
    have h0 : ¬ data.length = 0 := by omega
    have hns : ¬ data.length < 30 := by omega
    simp only [List.getD, List.get?_eq_getElem?] at h6 h7
    unfold load_vm parse_header
    simp [h0, hns, h6, h7]
  · intro hv hlen
    have h0 : ¬ data.length = 0 := by omega
    have hns : ¬ data.length < 30 := by omega
    have hge : ¬ data.length < 44 := by omega
    unfold load_vm parse_header
    simp [h0, hns, hge]

/-- Witness for the C8 theorem: a 10-byte image is rejected at load time. -/
theorem load_rejects_short_headers_witness :
    (List.replicate 10 0).length < 30 ∧
    load_vm 0 (List.replicate 10 0) = Except.error LoadErr.truncated :=
  ⟨by decide, (load_rejects_short_headers 0 (List.replicate 10 0)).1 (by decide)⟩

/-- Counterexample to C8 as stated: a 64-byte image whose version byte is 9
(outside 1..8) loads successfully into a runnable VM — the unsupported
version is not rejected. -/
theorem load_version_counterexample :
    (9 :: List.replicate 63 0).length = 64 ∧
    (9 :: List.replicate 63 0).getD 0 0 = 9 ∧
    ∃ vm, load_vm 0 (9 :: List.replicate 63 0) = Except.ok vm ∧
      vm.header.version = 9 := by
  refine ⟨by decide, rfl, ⟨_, rfl, rfl⟩⟩

/-- C5: the decoder's version-dependent opcode reassignment.  For V ≥ 5
the 1-operand opcode 0x0F (short-form bytes 0x8F/0x9F/0xAF) decodes as
call_1n without a store target instead of not with one; the 0-operand
opcode 0x09 (byte 0xB9) decodes as catch with a store target instead of
pop without one; VAR opcode 0x04 decodes as aread with a store target
instead of sread without one; and the 0-operand save/restore (bytes
0xB5/0xB6) carry a branch field for V ≤ 3 but a store target (and no
branch) for V ≥ 4. -/
theorem version_opcode_reassignment (V A : Nat) (mem : List Nat) (pc : Nat) :
    (5 ≤ V →
      ((decode_short V A mem pc 0x8F).map (fun r => (r.1.name, r.1.store_var.isSome)) =
          some ("call_1n", false)) ∧
      ((decode_short V A mem pc 0x9F).map (fun r => (r.1.name, r.1.store_var.isSome)) =
          some ("call_1n", false)) ∧
      ((decode_short V A mem pc 0xAF).map (fun r => (r.1.name, r.1.store_var.isSome)) =
          some ("call_1n", false)) ∧
      ((decode_short V A mem pc 0xB9).map (fun r => (r.1.name, r.1.store_var.isSome)) =
          some ("catch", true)) ∧
      (decode_var_var V mem pc 4).1.name = "aread" ∧
      (decode_var_var V mem pc 4).1.store_var.isSome = true) ∧
    (V ≤ 4 →
      ((decode_short V A mem pc 0x8F).map (fun r => (r.1.name, r.1.store_var.isSome)) =
          some ("not", true)) ∧
      ((decode_short V A mem pc 0x9F).map (fun r => (r.1.name, r.1.store_var.isSome)) =
          some ("not", true)) ∧
      ((decode_short V A mem pc 0xAF).map (fun r => (r.1.name, r.1.store_var.isSome)) =
          some ("not", true)) ∧
      ((decode_short V A mem pc 0xB9).map (fun r => (r.1.name, r.1.store_var.isSome)) =
          some ("pop", false)) ∧
      (decode_var_var V mem pc 4).1.name = "sread" ∧
      (decode_var_var V mem pc 4).1.store_var = none) ∧
    (V ≤ 3 →
      ((decode_short V A mem pc 0xB5).map
          (fun r => (r.1.store_var.isSome, r.1.branch.isSome)) = some (false, true)) ∧
      ((decode_short V A mem pc 0xB6).map
          (fun r => (r.1.store_var.isSome, r.1.branch.isSome)) = some (false, true))) ∧
    (4 ≤ V →
      ((decode_short V A mem pc 0xB5).map
          (fun r => (r.1.store_var.isSome, r.1.branch.isSome)) = some (true, false)) ∧
      ((decode_short V A mem pc 0xB6).map
          (fun r => (r.1.store_var.isSome, r.1.branch.isSome)) = some (true, false))) := by
  have e1 : (8 &&& 3 : Nat) = 0 := by decide
  have e2 : (9 &&& 3 : Nat) = 1 := by decide
  have e3 : (10 &&& 3 : Nat) = 2 := by decide
  have e4 : (11 &&& 3 : Nat) = 3 := by decide
  have g1 : (143 >>> 4 : Nat) = 8 := by decide
  have g2 : (159 >>> 4 : Nat) = 9 := by decide
  have g3 : (175 >>> 4 : Nat) = 10 := by decide
  have g4 : (185 >>> 4 : Nat) = 11 := by decide
  have g5 : (181 >>> 4 : Nat) = 11 := by decide
  have g6 : (182 >>> 4 : Nat) = 11 := by decide
  have f1 : (143 &&& 15 : Nat) = 15 := by decide
  have f2 : (159 &&& 15 : Nat) = 15 := by decide
  have f3 : (175 &&& 15 : Nat) = 15 := by decide
  have f4 : (185 &&& 15 : Nat) = 9 := by decide
  have f5 : (181 &&& 15 : Nat) = 5 := by decide
  have f6 : (182 &&& 15 : Nat) = 6 := by decide
  refine ⟨?_, ?_, ?_, ?_⟩
  · intro h5
    have h4 : 4 ≤ V := by omega
    refine ⟨?_, ?_, ?_, ?_, ?_, ?_⟩ <;>
      simp [decode_short, decode_var_var, short_0op, short_1op, var_var_ops, h5, h4,
        e1, e2, e3, e4, g1, g2, g3, g4, f1, f2, f3, f4]
  · intro h4
    have hn5 : ¬ 5 ≤ V := by omega
    refine ⟨?_, ?_, ?_, ?_, ?_, ?_⟩ <;>
      simp [decode_short, decode_var_var, short_0op, short_1op, var_var_ops, hn5,
        e1, e2, e3, e4, g1, g2, g3, g4, f1, f2, f3, f4]
  · intro h3
    have hn4 : ¬ 4 ≤ V := by omega
    have hn5 : ¬ 5 ≤ V := by omega
    refine ⟨?_, ?_⟩ <;>
      simp [decode_short, short_0op, hn4, hn5, e4, g5, g6, f5, f6]
  · intro h4
    refine ⟨?_, ?_⟩ <;>
      simp [decode_short, short_0op, h4, e4, g5, g6, f5, f6]

/-- Witness for the C5 theorem at version 5: byte 0x8F decodes to call_1n
with no store target. -/
theorem version_opcode_reassignment_witness :
    (5 : Nat) ≤ 5 ∧
    ((decode_short 5 0 [0] 1 0x8F).map (fun r => (r.1.name, r.1.store_var.isSome)) =
      some ("call_1n", false)) :=
  ⟨by decide, ((version_opcode_reassignment 5 0 [0] 1).1 (by decide)).1⟩

/-- C10: send_input on a machine that is not waiting for input, or that
has no pending input continuation registered, is a no-op for every text:
the machine (memory, pc, stacks, locals, output buffer and all flags) is
returned exactly as it was. -/
theorem send_input_noop (m : ZMachine) (text : String)
    (h : m.waiting_for_input = false ∨ m.pending_input = none) :
    send_input text m = (Except.ok (), m) := by
  unfold send_input
  cases hw : m.waiting_for_input with
  | false => rfl
  | true =>
      cases hp : m.pending_input with
      | none => rfl
      | some p =>
          rcases h with h | h
          · rw [hw] at h; cases h
          · rw [hp] at h; cases h

/-- Witness for the C10 theorem: the idle test machine ignores "look". -/
theorem send_input_noop_witness :
    (testMachine 0 []).waiting_for_input = false ∧
    send_input "look" (testMachine 0 []) = (Except.ok (), testMachine 0 []) :=
  ⟨rfl, send_input_noop (testMachine 0 []) "look" (Or.inl rfl)⟩

/-- C3: restoring the snapshot taken by save_state immediately afterwards
leaves the dynamic memory (in fact all of memory), the program counter,
the evaluation stack, the call stack, the current locals and the RNG state
exactly as they were. -/
theorem snapshot_roundtrip (m : ZMachine) :
    (restore_state m (save_state m)).memory = m.memory ∧
    (restore_state m (save_state m)).memory.take m.header.static_memory =
      m.memory.take m.header.static_memory ∧
    (restore_state m (save_state m)).pc = m.pc ∧
    (restore_state m (save_state m)).stack = m.stack ∧
    (restore_state m (save_state m)).call_stack = m.call_stack ∧
    (restore_state m (save_state m)).locals = m.locals ∧
    (restore_state m (save_state m)).rng = m.rng := by
  simp [restore_state, save_state]

/-- C4: a decoded branch is taken exactly when the condition equals the
declared polarity; a taken branch with offset 0 performs a return of 0
(rfalse), with offset 1 a return of 1 (rtrue), and with any other offset it
moves the pc (to pc + offset − 2) leaving the stacks and locals alone; a
branch that is not taken leaves the whole machine exactly as it was after
operand decoding. -/
theorem branch_polarity (mem : List Nat) (pc : Nat) (cond : Bool) (m : ZMachine) :
    (cond ≠ (read_branch mem pc).1.2 →
      do_branch cond (read_branch mem pc).1 m = (Except.ok (), m)) ∧
    (cond = (read_branch mem pc).1.2 →
      ((read_branch mem pc).1.1 = 0 →
        do_branch cond (read_branch mem pc).1 m = zreturn 0 m) ∧
      ((read_branch mem pc).1.1 = 1 →
        do_branch cond (read_branch mem pc).1 m = zreturn 1 m) ∧
      ((read_branch mem pc).1.1 ≠ 0 → (read_branch mem pc).1.1 ≠ 1 →
        do_branch cond (read_branch mem pc).1 m =
          (Except.ok (), { m with pc := m.pc + (read_branch mem pc).1.1 - 2 }) ∧
        (do_branch cond (read_branch mem pc).1 m).2.call_stack = m.call_stack ∧
        (do_branch cond (read_branch mem pc).1 m).2.stack = m.stack ∧
        (do_branch cond (read_branch mem pc).1 m).2.locals = m.locals)) := by
  rcases hbi : (read_branch mem pc).1 with ⟨off, pol⟩
  constructor
  · intro hne
    have h : ¬ (cond = pol) := hne
    simp [do_branch, h, ZM.pure]
  · intro heq
    have heq2 : cond = pol := heq
    refine ⟨?_, ?_, ?_⟩
    · intro h0
      have h0e : off = 0 := h0
      simp [do_branch, heq2, h0e]
    · intro h1
      have h1e : off = 1 := h1
      simp [do_branch, heq2, h1e]
    · intro h0 h1
      have h0e : off ≠ 0 := h0
      have h1e : off ≠ 1 := h1
      have hres : do_branch cond (off, pol) m =
          (Except.ok (), { m with pc := m.pc + off - 2 }) := by
        simp [do_branch, heq2, h0e, h1e]
      exact ⟨hres, by rw [hres], by rw [hres], by rw [hres]⟩

/-- Witness for the C4 theorem: branch byte 0xC5 (polarity true, one-byte
offset 5) with a true condition moves the pc from 0 to 3. -/
theorem branch_polarity_witness :
    true = (read_branch [197] 0).1.2 ∧
    (read_branch [197] 0).1.1 ≠ 0 ∧ (read_branch [197] 0).1.1 ≠ 1 ∧
    do_branch true (read_branch [197] 0).1 (testMachine 0 [197]) =
      (Except.ok (), { testMachine 0 [197] with pc := 0 + 5 - 2 }) :=
  ⟨by decide, by decide, by decide,
    (((branch_polarity [197] 0 true (testMachine 0 [197])).2 (by decide)).2.2
      (by decide) (by decide)).1⟩

/-- State components untouched by a word write, in both outcome branches. -/
lemma write_word_frame (addr v : Nat) (m : ZMachine) :
    (write_word addr v m).2.stack = m.stack ∧
    (write_word addr v m).2.locals = m.locals ∧
    (write_word addr v m).2.call_stack = m.call_stack ∧
    (write_word addr v m).2.pc = m.pc := by
  unfold write_word; split <;> simp

/-- Case split of set_variable by the variable number. -/
lemma set_variable_cases (sv v : Nat) (m : ZMachine) :
    (sv = 0 ∧ set_variable sv v m =
      (Except.ok (), { m with stack := mask16 v :: m.stack })) ∨
    (1 ≤ sv ∧ sv < 16 ∧ set_variable sv v m =
      (Except.ok (), { m with locals := m.locals.set (sv - 1) (mask16 v) })) ∨
    (16 ≤ sv ∧ set_variable sv v m =
      write_word (m.header.globals + (sv - 16) * 2) (mask16 v) m) := by
  by_cases h0 : sv = 0
  · left
    refine ⟨h0, ?_⟩
    simp [set_variable, h0, push, mask16_idem]
  · by_cases h16 : sv < 16
    · right; left
      refine ⟨by omega, h16, ?_⟩
      simp [set_variable, h0, h16, mask16_idem, mask16]
    · right; right
      refine ⟨by omega, ?_⟩
      simp only [set_variable, h0, if_false, h16]
      rfl

/-- C9 (amended): a call to packed routine address 0 pushes no call frame
and leaves the pc unchanged; with no store variable the machine is left
wholly unchanged, and with a store variable the only effect is that 0 is
stored into it — a push onto the evaluation stack for variable 0, a local
update for variables 1–15, and a global (memory) write for variables ≥ 16,
each leaving the other state components alone. -/
theorem call_packed_zero (m : ZMachine) (args : List Nat) (sv : Nat) :
    call_routine 0 args none m = (Except.ok (), m) ∧
    call_routine 0 args (some sv) m = set_variable sv 0 m ∧
    (call_routine 0 args (some sv) m).2.call_stack = m.call_stack ∧
    (call_routine 0 args (some sv) m).2.pc = m.pc ∧
    (sv = 0 →
      call_routine 0 args (some sv) m =
        (Except.ok (), { m with stack := 0 :: m.stack })) ∧
    (1 ≤ sv → sv < 16 →
      call_routine 0 args (some sv) m =
        (Except.ok (), { m with locals := m.locals.set (sv - 1) 0 })) ∧
    (16 ≤ sv →
      (call_routine 0 args (some sv) m).2.stack = m.stack ∧
      (call_routine 0 args (some sv) m).2.locals = m.locals ∧
      (call_routine 0 args (some sv) m).2.memory.length = m.memory.length) := by
  have hnone : call_routine 0 args none m = (Except.ok (), m) := rfl
  have hsv : call_routine 0 args (some sv) m = set_variable sv 0 m := rfl
  rcases set_variable_cases sv 0 m with ⟨h0, hset⟩ | ⟨h1, h16, hset⟩ | ⟨h16, hset⟩
  · refine ⟨hnone, hsv, ?_, ?_, ?_, ?_, ?_⟩
    · rw [hsv, hset]
    · rw [hsv, hset]
    · intro _; rw [hsv, hset]; rfl
    · intro hge _; omega
    · intro hge; omega
  · refine ⟨hnone, hsv, ?_, ?_, ?_, ?_, ?_⟩
    · rw [hsv, hset]
    · rw [hsv, hset]
    · intro h0; omega
    · intro _ _; rw [hsv, hset]; rfl
    · intro hge; omega
  · have hw := write_word_frame (m.header.globals + (sv - 16) * 2) (mask16 0) m
    refine ⟨hnone, hsv, ?_, ?_, ?_, ?_, ?_⟩
    · rw [hsv, hset]; exact hw.2.2.1
    · rw [hsv, hset]; exact hw.2.2.2
    · intro h0; omega
    · intro _ hlt; omega
    · intro _
      rw [hsv, hset]
      refine ⟨hw.1, hw.2.1, ?_⟩
      unfold write_word
      split
      · rfl
      · simp

/-- Witness for the C9 theorem: at a concrete machine with an empty stack,
store variable 0 receives the pushed 0. -/
theorem call_packed_zero_witness :
    call_routine 0 [] (some 0) (testMachine 0 []) =
      (Except.ok (), { testMachine 0 [] with stack := [0] }) :=
  (call_packed_zero (testMachine 0 []) [] 0).2.2.2.2.1 rfl

/-- Counterexample to C9 as stated: the claim says the stacks (and locals
and memory) are unchanged while 0 is also stored; with store variable 0 the
store is a push, so the evaluation stack does change. -/
theorem call_packed_zero_counterexample :
    (call_routine 0 [] (some 0) (testMachine 0 [])).2.stack = [0] ∧
    (testMachine 0 []).stack = [] := by
  constructor
  · rw [(call_packed_zero (testMachine 0 []) [] 0).2.2.2.2.1 rfl]
    rfl
  · rfl

namespace ObjTree

@[simp] lemma n_setParent (t : ObjTable) (a v : Nat) : (setParent t a v).n = t.n := by
  unfold setParent; split <;> rfl

@[simp] lemma n_setSibling (t : ObjTable) (a v : Nat) : (setSibling t a v).n = t.n := by
  unfold setSibling; split <;> rfl

@[simp] lemma n_setChild (t : ObjTable) (a v : Nat) : (setChild t a v).n = t.n := by
  unfold setChild; split <;> rfl

@[simp] lemma getSibling_setParent (t : ObjTable) (a v x : Nat) :
    getSibling (setParent t a v) x = getSibling t x := by
  unfold setParent; split <;> rfl

@[simp] lemma getChild_setParent (t : ObjTable) (a v x : Nat) :
    getChild (setParent t a v) x = getChild t x := by
  unfold setParent; split <;> rfl

@[simp] lemma getParent_setSibling (t : ObjTable) (a v x : Nat) :
    getParent (setSibling t a v) x = getParent t x := by
  unfold setSibling; split <;> rfl

@[simp] lemma getChild_setSibling (t : ObjTable) (a v x : Nat) :
    getChild (setSibling t a v) x = getChild t x := by
  unfold setSibling; split <;> rfl

@[simp] lemma getParent_setChild (t : ObjTable) (a v x : Nat) :
    getParent (setChild t a v) x = getParent t x := by
  unfold setChild; split <;> rfl

@[simp] lemma getSibling_setChild (t : ObjTable) (a v x : Nat) :
    getSibling (setChild t a v) x = getSibling t x := by
  unfold setChild; split <;> rfl

lemma getParent_setParent_self (t : ObjTable) {a : Nat} (v : Nat)
    (ha : 1 ≤ a ∧ a ≤ t.n) : getParent (setParent t a v) a = v := by
  unfold setParent getParent
  simp [ha, Function.update_apply]

lemma getParent_setParent_ne (t : ObjTable) {a x : Nat} (v : Nat) (hx : x ≠ a) :
    getParent (setParent t a v) x = getParent t x := by
  unfold setParent getParent
  split
  · simp [Function.update_apply, hx]
  · rfl

lemma getSibling_setSibling_self (t : ObjTable) {a : Nat} (v : Nat)
    (ha : 1 ≤ a ∧ a ≤ t.n) : getSibling (setSibling t a v) a = v := by
  unfold setSibling getSibling
  simp [ha, Function.update_apply]

lemma getSibling_setSibling_ne (t : ObjTable) {a x : Nat} (v : Nat) (hx : x ≠ a) :
    getSibling (setSibling t a v) x = getSibling t x := by
  unfold setSibling getSibling
  split
  · simp [Function.update_apply, hx]
  · rfl

lemma getChild_setChild_self (t : ObjTable) {a : Nat} (v : Nat)
    (ha : 1 ≤ a ∧ a ≤ t.n) : getChild (setChild t a v) a = v := by
  unfold setChild getChild
  simp [ha, Function.update_apply]

lemma getChild_setChild_ne (t : ObjTable) {a x : Nat} (v : Nat) (hx : x ≠ a) :
    getChild (setChild t a v) x = getChild t x := by
  unfold setChild getChild
  split
  · simp [Function.update_apply, hx]
  · rfl

lemma getParent_eq_zero_of_invalid (t : ObjTable) {o : Nat}
    (h : ¬ (1 ≤ o ∧ o ≤ t.n)) : getParent t o = 0 := by
  unfold getParent; simp [h]

lemma getChild_eq_zero_of_invalid (t : ObjTable) {o : Nat}
    (h : ¬ (1 ≤ o ∧ o ≤ t.n)) : getChild t o = 0 := by
  unfold getChild; simp [h]

lemma sibPath_mem_ne_zero {t : ObjTable} {s : Nat} {l : List Nat}
    (h : SibPath t s l) : ∀ x ∈ l, x ≠ 0 := by
  induction h with
  | nil => intro x hx; cases hx
  | cons ho hp ih =>
      intro x hx
      rcases List.mem_cons.mp hx with hx | hx
      · subst hx; assumption
      · exact ih x hx

lemma sibPath_unique {t : ObjTable} {s : Nat} {l1 l2 : List Nat}
    (h1 : SibPath t s l1) (h2 : SibPath t s l2) : l1 = l2 := by
  induction h1 generalizing l2 with
  | nil =>
      cases h2 with
      | nil => rfl
      | cons ho hp => exact absurd rfl ho
  | cons ho hp ih =>
      cases h2 with
      | nil => exact absurd rfl ho
      | cons ho2 hp2 => rw [ih hp2]

lemma chainF_eq_of_sibPath {t : ObjTable} {s : Nat} {l : List Nat}
    (h : SibPath t s l) : ∀ fuel, l.length < fuel → chainF t fuel s = l := by
  induction h with
  | nil =>
      intro fuel hf
      cases fuel with
      | zero => omega
      | succ f => simp [chainF]
  | cons ho hp ih =>
      intro fuel hf
      cases fuel with
      | zero => simp at hf
      | succ f =>
          simp only [chainF, ho, if_false, List.cons.injEq, true_and]
          exact ih f (by simp at hf; omega)

lemma chainF_spec (t : ObjTable) : ∀ fuel s,
    SibPath t s (chainF t fuel s) ∨ (chainF t fuel s).length = fuel := by
  intro fuel
  induction fuel with
  | zero => intro s; right; rfl
  | succ f ih =>
      intro s
      by_cases hs : s = 0
      · left
        subst hs
        simp only [chainF, if_pos rfl]
        exact SibPath.nil
      · rcases ih (getSibling t s) with h | h
        · left
          simp only [chainF, hs, if_false]
          exact SibPath.cons hs h
        · right
          simp [chainF, hs, h]

lemma sibPath_suffix {t : ObjTable} {s x : Nat} {l : List Nat} (h : SibPath t s l)
    (hx : x ∈ l) : ∃ l1 l2, l = l1 ++ x :: l2 ∧ SibPath t x (x :: l2) := by
  induction h with
  | nil => cases hx
  | cons ho hp ih =>
      rename_i o l'
      rcases List.mem_cons.mp hx with hh | hh
      · subst hh
        exact ⟨[], l', rfl, SibPath.cons ho hp⟩
      · rcases ih hh with ⟨l1, l2, hl, hpath⟩
        exact ⟨o :: l1, l2, by rw [hl]; rfl, hpath⟩

lemma sibPath_congr {t t2 : ObjTable} {s : Nat} {l : List Nat} (h : SibPath t s l)
    (hagree : ∀ x ∈ l, getSibling t2 x = getSibling t x) : SibPath t2 s l := by
  induction h with
  | nil => exact SibPath.nil
  | cons ho hp ih =>
      rename_i o l'
      refine SibPath.cons ho ?_
      rw [hagree o (List.mem_cons_self o l')]
      exact ih (fun x hx => hagree x (List.mem_cons_of_mem _ hx))

lemma sibpath_build {t t2 : ObjTable} {prev v : Nat} {l2 l3 : List Nat}
    (hv : getSibling t2 prev = v) (h3 : SibPath t2 v l3) :
    ∀ (l1 : List Nat) {s : Nat}, SibPath t s (l1 ++ prev :: l2) →
    (∀ x ∈ l1, getSibling t2 x = getSibling t x) →
    SibPath t2 s (l1 ++ prev :: l3) := by
  intro l1
  induction l1 with
  | nil =>
      intro s h hagr
      simp only [List.nil_append] at h ⊢
      cases h with
      | cons ho hp => exact SibPath.cons ho (by rw [hv]; exact h3)
  | cons x l1' ih =>
      intro s h hagr
      simp only [List.cons_append] at h ⊢
      cases h with
      | cons ho hp =>
          refine SibPath.cons ho ?_
          rw [hagr x (List.mem_cons_self x l1')]
          exact ih hp (fun y hy => hagr y (List.mem_cons_of_mem _ hy))

lemma findPrev_spec {t : ObjTable} {obj : Nat} :
    ∀ (fuel : Nat) {s : Nat} {l : List Nat}, SibPath t s l → obj ∈ l → obj ≠ s →
      l.length ≤ fuel →
      findPrev t obj fuel s ≠ 0 ∧ getSibling t (findPrev t obj fuel s) = obj ∧
        findPrev t obj fuel s ∈ l := by
  intro fuel
  induction fuel with
  | zero =>
      intro s l h hm hne hlen
      cases h with
      | nil => cases hm
      | cons ho hp => simp at hlen
  | succ f ih =>
      intro s l h hm hne hlen
      cases h with
      | nil => cases hm
      | cons ho hp =>
          rename_i l'
          by_cases hsib : getSibling t s = obj
          · have hc : ¬ (s ≠ 0 ∧ getSibling t s ≠ obj) := by simp [hsib]
            rw [findPrev, if_neg hc]
            exact ⟨ho, hsib, List.mem_cons_self s l'⟩
          · have hc : s ≠ 0 ∧ getSibling t s ≠ obj := ⟨ho, hsib⟩
            rw [findPrev, if_pos hc]
            have hm2 : obj ∈ l' := by
              rcases List.mem_cons.mp hm with hh | hh
              · exact absurd hh hne
              · exact hh
            have hne2 : obj ≠ getSibling t s := fun h => hsib h.symm
            have hlen2 : l'.length ≤ f := by simp at hlen; omega
            rcases ih hp hm2 hne2 hlen2 with ⟨h1, h2, h3⟩
            exact ⟨h1, h2, List.mem_cons_of_mem _ h3⟩

lemma sibPath_cons_inv {t : ObjTable} {o : Nat} {l : List Nat} (h : SibPath t o l)
    (ho : o ≠ 0) : ∃ l2, l = o :: l2 ∧ SibPath t (getSibling t o) l2 := by
  cases h with
  | nil => exact absurd rfl ho
  | cons h2 hp => exact ⟨_, rfl, hp⟩

lemma wf_parent {t : ObjTable} (hwf : WF t) {o : Nat} (ho : 1 ≤ o ∧ o ≤ t.n) :
    getParent t o = 0 ∨ (1 ≤ getParent t o ∧ getParent t o ≤ t.n) :=
  hwf.1 o (by omega) ho.1

lemma wf_elems {t : ObjTable} (hwf : WF t) {r : Nat} (hr : 1 ≤ r ∧ r ≤ t.n) :
    ∀ x ∈ chainOf t r, 1 ≤ x ∧ x ≤ t.n :=
  hwf.2.1 r (by omega) hr.1

lemma wf_count {t : ObjTable} (hwf : WF t) {o r : Nat}
    (ho : 1 ≤ o ∧ o ≤ t.n) (hr : 1 ≤ r ∧ r ≤ t.n) :
    (chainOf t r).count o = if getParent t o = r then 1 else 0 :=
  hwf.2.2 o (by omega) ho.1 r (by omega) hr.1

lemma length_le_of_nodup_mem {l : List Nat} {n : Nat} (hnd : l.Nodup)
    (hmem : ∀ x ∈ l, 1 ≤ x ∧ x ≤ n) : l.length ≤ n := by
  have hsub : l.toFinset ⊆ Finset.Icc 1 n := by
    intro x hx
    exact Finset.mem_Icc.mpr (hmem x (List.mem_toFinset.mp hx))
  have hcard : l.toFinset.card ≤ (Finset.Icc 1 n).card := Finset.card_le_card hsub
  rw [List.toFinset_card_of_nodup hnd] at hcard
  simpa [Nat.card_Icc] using hcard

lemma nodup_of_counts {t2 : ObjTable} {l : List Nat} {r : Nat}
    (helems : ∀ x ∈ l, 1 ≤ x ∧ x ≤ t2.n)
    (hcount : ∀ o, 1 ≤ o → o ≤ t2.n → l.count o = if getParent t2 o = r then 1 else 0) :
    l.Nodup := by
  rw [List.nodup_iff_count_le_one]
  intro a
  by_cases ha : 1 ≤ a ∧ a ≤ t2.n
  · rw [hcount a ha.1 ha.2]; split <;> omega
  · simp [List.count_eq_zero_of_not_mem (fun hmem => ha (helems a hmem))]

lemma wf_nodup {t : ObjTable} (hwf : WF t) {r : Nat} (hr : 1 ≤ r ∧ r ≤ t.n) :
    (chainOf t r).Nodup :=
  nodup_of_counts (wf_elems hwf hr) (fun _o h1 h2 => wf_count hwf ⟨h1, h2⟩ hr)

lemma chain_length_le {t : ObjTable} (hwf : WF t) {r : Nat} (hr : 1 ≤ r ∧ r ≤ t.n) :
    (chainOf t r).length ≤ t.n :=
  length_le_of_nodup_mem (wf_nodup hwf hr) (wf_elems hwf hr)

lemma chain_sibPath {t : ObjTable} (hwf : WF t) {r : Nat} (hr : 1 ≤ r ∧ r ≤ t.n) :
    SibPath t (getChild t r) (chainOf t r) := by
  rcases chainF_spec t (t.n + 1) (getChild t r) with h | h
  · exact h
  · exfalso
    have hle := chain_length_le hwf hr
    unfold chainOf at hle
    omega

lemma chainOf_eq_of_sibPath {t : ObjTable} {r : Nat} {l : List Nat}
    (h : SibPath t (getChild t r) l) (hlen : l.length ≤ t.n) :
    chainOf t r = l :=
  chainF_eq_of_sibPath h (t.n + 1) (by omega)

/-- Well-formedness from per-chain witnesses: if every valid object's
chain is an exact sibling path of valid ids with the right occurrence
counts, the table is well-formed (the fueled chains then compute these
exact paths). -/
lemma wf_of_spec (t2 : ObjTable)
    (hpar : ∀ o, 1 ≤ o → o ≤ t2.n →
      getParent t2 o = 0 ∨ (1 ≤ getParent t2 o ∧ getParent t2 o ≤ t2.n))
    (spec : ∀ r, 1 ≤ r → r ≤ t2.n → ∃ l, SibPath t2 (getChild t2 r) l ∧
      (∀ x ∈ l, 1 ≤ x ∧ x ≤ t2.n) ∧
      (∀ o, 1 ≤ o → o ≤ t2.n → l.count o = if getParent t2 o = r then 1 else 0)) :
    WF t2 := by
  have hchain : ∀ r, 1 ≤ r → r ≤ t2.n →
      (∀ x ∈ chainOf t2 r, 1 ≤ x ∧ x ≤ t2.n) ∧
      (∀ o, 1 ≤ o → o ≤ t2.n →
        (chainOf t2 r).count o = if getParent t2 o = r then 1 else 0) := by
    intro r hr1 hr2
    rcases spec r hr1 hr2 with ⟨l, hpath, helems, hcount⟩
    have hnd : l.Nodup := nodup_of_counts helems hcount
    have hlen : l.length ≤ t2.n := length_le_of_nodup_mem hnd helems
    have heq : chainOf t2 r = l := chainOf_eq_of_sibPath hpath hlen
    rw [heq]
    exact ⟨helems, hcount⟩
  refine ⟨fun o holt ho1 => hpar o ho1 (by omega), ?_, ?_⟩
  · intro r hrlt hr1 x hx
    exact (hchain r hr1 (by omega)).1 x hx
  · intro o holt ho1 r hrlt hr1
    exact (hchain r hr1 (by omega)).2 o ho1 (by omega)

/-- Removal when obj is its parent's first child: the chain drops its
head and stays well-formed. -/
lemma remove_head_case {t : ObjTable} (hwf : WF t) {obj p : Nat}
    (hvo : 1 ≤ obj ∧ obj ≤ t.n) (hvp : 1 ≤ p ∧ p ≤ t.n)
    (hpar : getParent t obj = p) (hchd : getChild t p = obj) :
    WF (setSibling (setParent (setChild t p (getSibling t obj)) obj 0) obj 0) := by
  set tR := setSibling (setParent (setChild t p (getSibling t obj)) obj 0) obj 0 with htR
  have hRn : tR.n = t.n := by rw [htR]; simp
  have hsib_ne : ∀ x, x ≠ obj → getSibling tR x = getSibling t x := by
    intro x hx
    rw [htR, getSibling_setSibling_ne _ _ hx, getSibling_setParent, getSibling_setChild]
  have hpar_ne : ∀ x, x ≠ obj → getParent tR x = getParent t x := by
    intro x hx
    rw [htR, getParent_setSibling, getParent_setParent_ne _ _ hx, getParent_setChild]
  have hpar_obj : getParent tR obj = 0 := by
    rw [htR, getParent_setSibling]
    exact getParent_setParent_self _ 0 (by simpa using hvo)
  have hchild_ne : ∀ r, r ≠ p → getChild tR r = getChild t r := by
    intro r hr
    rw [htR, getChild_setSibling, getChild_setParent, getChild_setChild_ne _ _ hr]
  have hchild_p : getChild tR p = getSibling t obj := by
    rw [htR, getChild_setSibling, getChild_setParent, getChild_setChild_self _ _ hvp]
  have hpath := chain_sibPath hwf hvp
  have hnd := wf_nodup hwf hvp
  rw [hchd] at hpath
  have hobj0 : obj ≠ 0 := by omega
  obtain ⟨l2, hceq, hl2⟩ := sibPath_cons_inv hpath hobj0
  have hobjl2 : obj ∉ l2 := by
    rw [hceq] at hnd
    exact (List.nodup_cons.mp hnd).1
  have hnotmem : ∀ r, 1 ≤ r → r ≤ t.n → r ≠ p → obj ∉ chainOf t r := by
    intro r h1 h2 hne hin
    have hc := wf_count hwf hvo ⟨h1, h2⟩
    rw [hpar, if_neg (fun h => hne h.symm)] at hc
    have := List.count_pos_iff.mpr hin
    omega
  apply wf_of_spec
  · intro o h1 h2
    rw [hRn] at h2
    by_cases ho : o = obj
    · subst ho; left; exact hpar_obj
    · rw [hpar_ne o ho, hRn]
      exact wf_parent hwf ⟨h1, h2⟩
  · intro r h1 h2
    rw [hRn] at h2
    by_cases hrp : r = p
    · subst hrp
      refine ⟨l2, ?_, ?_, ?_⟩
      · rw [hchild_p]
        exact sibPath_congr hl2 (fun x hx => hsib_ne x (fun he => hobjl2 (he ▸ hx)))
      · intro x hx
        have hxin : x ∈ chainOf t r := by rw [hceq]; exact List.mem_cons_of_mem _ hx
        rw [hRn]
        exact wf_elems hwf hvp x hxin
      · intro o h1o h2o
        rw [hRn] at h2o
        by_cases ho : o = obj
        · subst ho
          rw [List.count_eq_zero_of_not_mem hobjl2, hpar_obj]
          rw [if_neg (by omega : (0 : Nat) ≠ r)]
        · have hcount := wf_count hwf ⟨h1o, h2o⟩ hvp
          rw [hceq, List.count_cons_of_ne ho] at hcount
          rw [hpar_ne o ho]
          exact hcount
    · refine ⟨chainOf t r, ?_, ?_, ?_⟩
      · rw [hchild_ne r hrp]
        refine sibPath_congr (chain_sibPath hwf ⟨h1, h2⟩) ?_
        intro x hx
        exact hsib_ne x (fun he => hnotmem r h1 h2 hrp (he ▸ hx))
      · intro x hx
        rw [hRn]
        exact wf_elems hwf ⟨h1, h2⟩ x hx
      · intro o h1o h2o
        rw [hRn] at h2o
        by_cases ho : o = obj
        · subst ho
          rw [List.count_eq_zero_of_not_mem (hnotmem r h1 h2 hrp), hpar_obj]
          rw [if_neg (by omega : (0 : Nat) ≠ r)]
        · rw [hpar_ne o ho]
          exact wf_count hwf ⟨h1o, h2o⟩ ⟨h1, h2⟩

/-- Removal when obj sits deeper in its parent's chain: the predecessor's
sibling link is spliced past obj and the chain stays well-formed. -/
lemma remove_splice_case {t : ObjTable} (hwf : WF t) {obj p prev : Nat}
    (hvo : 1 ≤ obj ∧ obj ≤ t.n) (hvp : 1 ≤ p ∧ p ≤ t.n)
    (hpar : getParent t obj = p)
    (hprev0 : prev ≠ 0) (hprevsib : getSibling t prev = obj)
    (hprevmem : prev ∈ chainOf t p) :
    WF (setSibling (setParent (setSibling t prev (getSibling t obj)) obj 0) obj 0) := by
  have hobj0 : obj ≠ 0 := by omega
  have hpath := chain_sibPath hwf hvp
  have hnd := wf_nodup hwf hvp
  have helems := wf_elems hwf hvp
  have hvprev : 1 ≤ prev ∧ prev ≤ t.n := helems prev hprevmem
  obtain ⟨l1, l2, hdec, hsuf⟩ := sibPath_suffix hpath hprevmem
  have hl2path : SibPath t (getSibling t prev) l2 := by
    cases hsuf with
    | cons h2 hp2 => exact hp2
  rw [hprevsib] at hl2path
  obtain ⟨l3, hl3eq, hl3path⟩ := sibPath_cons_inv hl2path hobj0
  have hdec2 : chainOf t p = l1 ++ prev :: obj :: l3 := by rw [hdec, hl3eq]
  have hndL : (l1 ++ prev :: obj :: l3).Nodup := by rw [← hdec2]; exact hnd
  rcases List.nodup_append.mp hndL with ⟨hnd1, hnd2, hdisj⟩
  have hprev_not : prev ∉ obj :: l3 := (List.nodup_cons.mp hnd2).1
  have hnd3 : (obj :: l3).Nodup := (List.nodup_cons.mp hnd2).2
  have hobj_l3 : obj ∉ l3 := (List.nodup_cons.mp hnd3).1
  have hprevobj : prev ≠ obj := fun he => hprev_not (he ▸ List.mem_cons_self obj l3)
  have hprev_l3 : prev ∉ l3 := fun hin => hprev_not (List.mem_cons_of_mem _ hin)
  have hobj_l1 : obj ∉ l1 := fun hin =>
    (hdisj hin) (List.mem_cons_of_mem _ (List.mem_cons_self obj l3))
  have hprev_l1 : prev ∉ l1 := fun hin => (hdisj hin) (List.mem_cons_self _ _)
  set tR := setSibling (setParent (setSibling t prev (getSibling t obj)) obj 0) obj 0
    with htR
  have hRn : tR.n = t.n := by rw [htR]; simp
  have hsib_ne : ∀ x, x ≠ obj → x ≠ prev → getSibling tR x = getSibling t x := by
    intro x hxo hxp
    rw [htR, getSibling_setSibling_ne _ _ hxo, getSibling_setParent,
      getSibling_setSibling_ne _ _ hxp]
  have hsib_prev : getSibling tR prev = getSibling t obj := by
    rw [htR, getSibling_setSibling_ne _ _ hprevobj, getSibling_setParent,
      getSibling_setSibling_self _ _ hvprev]
  have hpar_ne : ∀ x, x ≠ obj → getParent tR x = getParent t x := by
    intro x hx
    rw [htR, getParent_setSibling, getParent_setParent_ne _ _ hx, getParent_setSibling]
  have hpar_obj : getParent tR obj = 0 := by
    rw [htR, getParent_setSibling]
    exact getParent_setParent_self _ 0 (by simpa using hvo)
  have hchild_eq : ∀ r, getChild tR r = getChild t r := by
    intro r
    rw [htR, getChild_setSibling, getChild_setParent, getChild_setSibling]
  have hnotmem : ∀ r, 1 ≤ r → r ≤ t.n → r ≠ p → obj ∉ chainOf t r := by
    intro r h1 h2 hne hin
    have hc := wf_count hwf hvo ⟨h1, h2⟩
    rw [hpar, if_neg (fun h => hne h.symm)] at hc
    have := List.count_pos_iff.mpr hin
    omega
  have hprev_parent : getParent t prev = p := by
    have hc := wf_count hwf hvprev hvp
    by_contra hne
    rw [if_neg hne] at hc
    have := List.count_pos_iff.mpr hprevmem
    omega
  have hprevnot : ∀ r, 1 ≤ r → r ≤ t.n → r ≠ p → prev ∉ chainOf t r := by
    intro r h1 h2 hne hin
    have hc := wf_count hwf hvprev ⟨h1, h2⟩
    rw [hprev_parent, if_neg (fun h => hne h.symm)] at hc
    have := List.count_pos_iff.mpr hin
    omega
  apply wf_of_spec
  · intro o h1 h2
    rw [hRn] at h2
    by_cases ho : o = obj
    · subst ho; left; exact hpar_obj
    · rw [hpar_ne o ho, hRn]
      exact wf_parent hwf ⟨h1, h2⟩
  · intro r h1 h2
    rw [hRn] at h2
    by_cases hrp : r = p
    · subst hrp
      refine ⟨l1 ++ prev :: l3, ?_, ?_, ?_⟩
      · have hbase : SibPath tR (getSibling t obj) l3 := by
          refine sibPath_congr hl3path ?_
          intro x hx
          exact hsib_ne x (fun he => hobj_l3 (he ▸ hx)) (fun he => hprev_l3 (he ▸ hx))
        have hold : SibPath t (getChild t r) (l1 ++ prev :: obj :: l3) := by
          rw [← hdec2]; exact hpath
        rw [hchild_eq r]
        refine sibpath_build hsib_prev hbase l1 hold ?_
        intro x hx
        exact hsib_ne x (fun he => hobj_l1 (he ▸ hx)) (fun he => hprev_l1 (he ▸ hx))
      · intro x hx
        rw [hRn]
        refine wf_elems hwf hvp x ?_
        rw [hdec2]
        rcases List.mem_append.mp hx with hx | hx
        · exact List.mem_append_left _ hx
        · rcases List.mem_cons.mp hx with hx | hx
          · subst hx; exact List.mem_append_right _ (List.mem_cons_self _ _)
          · exact List.mem_append_right _
              (List.mem_cons_of_mem _ (List.mem_cons_of_mem _ hx))
      · intro o h1o h2o
        rw [hRn] at h2o
        by_cases ho : o = obj
        · subst ho
          have hcnt : (l1 ++ prev :: l3).count o = 0 := by
            rw [List.count_eq_zero_of_not_mem]
            intro hin
            rcases List.mem_append.mp hin with hx | hx
            · exact hobj_l1 hx
            · rcases List.mem_cons.mp hx with hx | hx
              · exact hprevobj hx.symm
              · exact hobj_l3 hx
          rw [hcnt, hpar_obj, if_neg (by omega : (0 : Nat) ≠ r)]
        · have hstep : (l1 ++ prev :: l3).count o = (l1 ++ prev :: obj :: l3).count o := by
            simp [List.count_append, List.count_cons, ho]
          have hcount := wf_count hwf ⟨h1o, h2o⟩ hvp
          rw [hdec2] at hcount
          rw [hstep, hcount, hpar_ne o ho]
    · refine ⟨chainOf t r, ?_, ?_, ?_⟩
      · rw [hchild_eq r]
        refine sibPath_congr (chain_sibPath hwf ⟨h1, h2⟩) ?_
        intro x hx
        exact hsib_ne x (fun he => hnotmem r h1 h2 hrp (he ▸ hx))
          (fun he => hprevnot r h1 h2 hrp (he ▸ hx))
      · intro x hx
        rw [hRn]
        exact wf_elems hwf ⟨h1, h2⟩ x hx
      · intro o h1o h2o
        rw [hRn] at h2o
        by_cases ho : o = obj
        · subst ho
          rw [List.count_eq_zero_of_not_mem (hnotmem r h1 h2 hrp), hpar_obj]
          rw [if_neg (by omega : (0 : Nat) ≠ r)]
        · rw [hpar_ne o ho]
          exact wf_count hwf ⟨h1o, h2o⟩ ⟨h1, h2⟩

lemma n_removeObject (t : ObjTable) (obj : Nat) : (removeObject t obj).n = t.n := by
  by_cases hp : getParent t obj = 0
  · simp [removeObject, hp]
  · by_cases hc : getChild t (getParent t obj) = obj
    · simp [removeObject, hp, hc]
    · by_cases hpz : findPrev t obj (t.n + 1) (getChild t (getParent t obj)) ≠ 0
      · simp [removeObject, hp, hc, hpz]
      · simp [removeObject, hp, hc, hpz]

/-- ZMachine.remove_object preserves well-formedness, for every obj (an
invalid or parentless obj makes it a no-op). -/
lemma removeObject_wf {t : ObjTable} (hwf : WF t) (obj : Nat) :
    WF (removeObject t obj) := by
  by_cases hp : getParent t obj = 0
  · have h : removeObject t obj = t := by simp [removeObject, hp]
    rw [h]; exact hwf
  · have hvo : 1 ≤ obj ∧ obj ≤ t.n := by
      by_contra hcn
      exact hp (getParent_eq_zero_of_invalid t hcn)
    have hvp : 1 ≤ getParent t obj ∧ getParent t obj ≤ t.n := by
      rcases wf_parent hwf hvo with h | h
      · exact absurd h hp
      · exact h
    by_cases hc : getChild t (getParent t obj) = obj
    · have hred : removeObject t obj =
          setSibling (setParent (setChild t (getParent t obj) (getSibling t obj))
            obj 0) obj 0 := by
        simp [removeObject, hp, hc]
      rw [hred]
      exact remove_head_case hwf hvo hvp rfl hc
    · have hpath := chain_sibPath hwf hvp
      have hmem : obj ∈ chainOf t (getParent t obj) := by
        have hcnt := wf_count hwf hvo hvp
        rw [if_pos rfl] at hcnt
        exact List.count_pos_iff.mp (by omega)
      have hlen := chain_length_le hwf hvp
      have hspec := findPrev_spec (t.n + 1) hpath hmem (fun h => hc h.symm) (by omega)
      have hred : removeObject t obj =
          setSibling (setParent (setSibling t
            (findPrev t obj (t.n + 1) (getChild t (getParent t obj)))
            (getSibling t obj)) obj 0) obj 0 := by
        simp [removeObject, hp, hc, hspec.1]
      rw [hred]
      exact remove_splice_case hwf hvo hvp rfl hspec.1 hspec.2.1 hspec.2.2

lemma getParent_removeObject (t : ObjTable) (obj : Nat) :
    getParent (removeObject t obj) obj = 0 := by
  by_cases hp : getParent t obj = 0
  · have h : removeObject t obj = t := by simp [removeObject, hp]
    rw [h]; exact hp
  · have hvo : 1 ≤ obj ∧ obj ≤ t.n := by
      by_contra hcn
      exact hp (getParent_eq_zero_of_invalid t hcn)
    by_cases hc : getChild t (getParent t obj) = obj
    · have hred : removeObject t obj =
          setSibling (setParent (setChild t (getParent t obj) (getSibling t obj))
            obj 0) obj 0 := by
        simp [removeObject, hp, hc]
      rw [hred, getParent_setSibling]
      exact getParent_setParent_self _ 0 (by simpa using hvo)
    · by_cases hpz : findPrev t obj (t.n + 1) (getChild t (getParent t obj)) ≠ 0
      · have hred : removeObject t obj =
            setSibling (setParent (setSibling t
              (findPrev t obj (t.n + 1) (getChild t (getParent t obj)))
              (getSibling t obj)) obj 0) obj 0 := by
          simp [removeObject, hp, hc, hpz]
        rw [hred, getParent_setSibling]
        exact getParent_setParent_self _ 0 (by simpa using hvo)
      · have hred : removeObject t obj = setSibling (setParent t obj 0) obj 0 := by
          simp [removeObject, hp, hc, hpz]
        rw [hred, getParent_setSibling]
        exact getParent_setParent_self _ 0 (by simpa using hvo)

lemma n_insertObject (t : ObjTable) (obj dest : Nat) :
    (insertObject t obj dest).n = t.n := by
  by_cases hd : dest = 0
  · simp [insertObject, hd, n_removeObject]
  · simp [insertObject, hd, n_removeObject]

/-- ZMachine.insert_object preserves well-formedness when obj is a valid
id and dest is 0 or a valid id. -/
lemma insertObject_wf {t : ObjTable} (hwf : WF t) {obj dest : Nat}
    (hvo : 1 ≤ obj ∧ obj ≤ t.n) (hvd : dest = 0 ∨ (1 ≤ dest ∧ dest ≤ t.n)) :
    WF (insertObject t obj dest) := by
  have hrem := removeObject_wf hwf obj
  by_cases hd : dest = 0
  · have h : insertObject t obj dest = removeObject t obj := by simp [insertObject, hd]
    rw [h]; exact hrem
  · rcases hvd with h0 | hvd
    · exact absurd h0 hd
    have htrn : (removeObject t obj).n = t.n := n_removeObject t obj
    have hvo2 : 1 ≤ obj ∧ obj ≤ (removeObject t obj).n := by rw [htrn]; exact hvo
    have hvd2 : 1 ≤ dest ∧ dest ≤ (removeObject t obj).n := by rw [htrn]; exact hvd
    have hpar0 : getParent (removeObject t obj) obj = 0 := getParent_removeObject t obj
    have hnotmem : ∀ r, 1 ≤ r → r ≤ (removeObject t obj).n →
        obj ∉ chainOf (removeObject t obj) r := by
      intro r h1 h2 hin
      have hc := wf_count hrem hvo2 ⟨h1, h2⟩
      rw [hpar0, if_neg (by omega : (0 : Nat) ≠ r)] at hc
      have := List.count_pos_iff.mpr hin
      omega
    have hred : insertObject t obj dest =
        setChild (setSibling (setParent (removeObject t obj) obj dest) obj
          (getChild (removeObject t obj) dest)) dest obj := by
      simp [insertObject, hd]
    rw [hred]
    set tr := removeObject t obj with htr
    set tR := setChild (setSibling (setParent tr obj dest) obj (getChild tr dest))
      dest obj with htRR
    have hRn : tR.n = tr.n := by rw [htRR]; simp
    have hobj0 : obj ≠ 0 := by omega
    have hsib_ne : ∀ x, x ≠ obj → getSibling tR x = getSibling tr x := by
      intro x hx
      rw [htRR, getSibling_setChild, getSibling_setSibling_ne _ _ hx,
        getSibling_setParent]
    have hsib_obj : getSibling tR obj = getChild tr dest := by
      rw [htRR, getSibling_setChild]
      exact getSibling_setSibling_self _ _ (by simpa using hvo2)
    have hpar_ne : ∀ x, x ≠ obj → getParent tR x = getParent tr x := by
      intro x hx
      rw [htRR, getParent_setChild, getParent_setSibling, getParent_setParent_ne _ _ hx]
    have hpar_obj : getParent tR obj = dest := by
      rw [htRR, getParent_setChild, getParent_setSibling]
      exact getParent_setParent_self _ dest hvo2
    have hchild_ne : ∀ r, r ≠ dest → getChild tR r = getChild tr r := by
      intro r hr
      rw [htRR, getChild_setChild_ne _ _ hr, getChild_setSibling, getChild_setParent]
    have hchild_dest : getChild tR dest = obj := by
      rw [htRR]
      exact getChild_setChild_self _ _ (by simpa using hvd2)
    apply wf_of_spec
    · intro o h1 h2
      rw [hRn] at h2
      by_cases ho : o = obj
      · subst ho
        right
        rw [hpar_obj, hRn]
        exact hvd2
      · rw [hpar_ne o ho, hRn]
        exact wf_parent hrem ⟨h1, h2⟩
    · intro r h1 h2
      rw [hRn] at h2
      by_cases hrd : r = dest
      · subst hrd
        refine ⟨obj :: chainOf tr r, ?_, ?_, ?_⟩
        · rw [hchild_dest]
          refine SibPath.cons hobj0 ?_
          rw [hsib_obj]
          refine sibPath_congr (chain_sibPath hrem ⟨h1, h2⟩) ?_
          intro x hx
          exact hsib_ne x (fun he => hnotmem r h1 h2 (he ▸ hx))
        · intro x hx
          rw [hRn]
          rcases List.mem_cons.mp hx with hx | hx
          · subst hx; exact hvo2
          · exact wf_elems hrem ⟨h1, h2⟩ x hx
        · intro o h1o h2o
          rw [hRn] at h2o
          by_cases ho : o = obj
          · subst ho
            rw [List.count_cons_self,
              List.count_eq_zero_of_not_mem (hnotmem r h1 h2), hpar_obj, if_pos rfl]
          · rw [List.count_cons_of_ne ho, hpar_ne o ho]
            exact wf_count hrem ⟨h1o, h2o⟩ ⟨h1, h2⟩
      · refine ⟨chainOf tr r, ?_, ?_, ?_⟩
        · rw [hchild_ne r hrd]
          refine sibPath_congr (chain_sibPath hrem ⟨h1, h2⟩) ?_
          intro x hx
          exact hsib_ne x (fun he => hnotmem r h1 h2 (he ▸ hx))
        · intro x hx
          rw [hRn]
          exact wf_elems hrem ⟨h1, h2⟩ x hx
        · intro o h1o h2o
          rw [hRn] at h2o
          by_cases ho : o = obj
          · subst ho
            rw [List.count_eq_zero_of_not_mem (hnotmem r h1 h2), hpar_obj,
              if_neg (fun h => hrd h.symm)]
          · rw [hpar_ne o ho]
            exact wf_count hrem ⟨h1o, h2o⟩ ⟨h1, h2⟩

lemma n_applyOp (t : ObjTable) (op : TreeOp) : (applyOp t op).n = t.n := by
  cases op with
  | ins obj dest => exact n_insertObject t obj dest
  | rem obj => exact n_removeObject t obj

lemma n_applyOps : ∀ (ops : List TreeOp) (t : ObjTable), (applyOps t ops).n = t.n := by
  intro ops
  induction ops with
  | nil => intro t; rfl
  | cons op rest ih =>
      intro t
      rw [show applyOps t (op :: rest) = applyOps (applyOp t op) rest from rfl,
        ih, n_applyOp]

lemma applyOps_wf : ∀ (ops : List TreeOp) (t : ObjTable), WF t →
    (∀ op ∈ ops, validOp t.n op) → WF (applyOps t ops) := by
  intro ops
  induction ops with
  | nil => intro t hwf _; exact hwf
  | cons op rest ih =>
      intro t hwf hops
      have h1 : WF (applyOp t op) := by
        cases op with
        | ins obj dest =>
            have hv := hops _ (List.mem_cons_self _ _)
            exact insertObject_wf hwf hv.1 hv.2
        | rem obj => exact removeObject_wf hwf obj
      refine ih (applyOp t op) h1 ?_
      intro op2 hop2
      rw [n_applyOp]
      exact hops op2 (List.mem_cons_of_mem _ hop2)

/-- The claim's phrasing of well-formedness, derived from WF: an object
with a nonzero parent occurs exactly once in that parent's child chain,
and an object with parent 0 occurs in no chain at all. -/
lemma wf_occurrence {t2 : ObjTable} (h : WF t2) {o : Nat} (ho : 1 ≤ o ∧ o ≤ t2.n) :
    (getParent t2 o ≠ 0 → (chainOf t2 (getParent t2 o)).count o = 1) ∧
    (getParent t2 o = 0 → ∀ r, o ∉ chainOf t2 r) := by
  constructor
  · intro hne
    have hvp : 1 ≤ getParent t2 o ∧ getParent t2 o ≤ t2.n := by
      rcases wf_parent h ho with hh | hh
      · exact absurd hh hne
      · exact hh
    rw [wf_count h ho hvp, if_pos rfl]
  · intro h0 r hin
    by_cases hvr : 1 ≤ r ∧ r ≤ t2.n
    · have hc := wf_count h ho hvr
      rw [h0, if_neg (by omega : (0 : Nat) ≠ r)] at hc
      have := List.count_pos_iff.mpr hin
      omega
    · have hempty : chainOf t2 r = [] := by
        unfold chainOf
        rw [getChild_eq_zero_of_invalid t2 hvr]
        rfl
      rw [hempty] at hin
      cases hin

/-- C2 (amended): starting from a well-formed object tree, any finite
sequence of insert_object(obj, dest) calls with obj a valid object id and
dest either 0 or a valid object id, and remove_object(obj) calls with
arbitrary obj, leaves the tree well-formed: each object with a nonzero
parent occurs exactly once in that parent's child chain, and an object
with parent 0 occurs in no chain. -/
theorem object_tree_invariant (t : ObjTable) (ops : List TreeOp)
    (hwf : WF t) (hops : ∀ op ∈ ops, validOp t.n op) :
    WF (applyOps t ops) ∧
    ∀ o, 1 ≤ o → o ≤ t.n →
      (getParent (applyOps t ops) o ≠ 0 →
        (chainOf (applyOps t ops) (getParent (applyOps t ops) o)).count o = 1) ∧
      (getParent (applyOps t ops) o = 0 → ∀ r, o ∉ chainOf (applyOps t ops) r) := by
  have hW := applyOps_wf ops t hwf hops
  refine ⟨hW, ?_⟩
  intro o h1 h2
  exact wf_occurrence hW ⟨h1, by rw [n_applyOps]; exact h2⟩

/-- Witness for the C2 theorem: on the two-object demo tree, inserting 2
into 1, removing 2 and then inserting 1 into 2 keeps the forest
well-formed. -/
theorem object_tree_invariant_witness :
    WF (applyOps demoTable [TreeOp.ins 2 1, TreeOp.rem 2, TreeOp.ins 1 2]) :=
  (object_tree_invariant demoTable [TreeOp.ins 2 1, TreeOp.rem 2, TreeOp.ins 1 2]
    (by decide) (by decide)).1

/-- Counterexample to C2 as stated: insert_object(0, 1) on the well-formed
demo tree (object 2 the only child of object 1) sets object 1's child link
to 0 while object 2 still records parent 1, so object 2 no longer occurs
in its parent's child chain — one insert call with obj = 0 breaks the
invariant. -/
theorem object_tree_invariant_counterexample :
    WF demoTable ∧
    getParent (insertObject demoTable 0 1) 2 = 1 ∧
    (chainOf (insertObject demoTable 0 1) 1).count 2 = 0 ∧
    ¬ WF (insertObject demoTable 0 1) := by
  refine ⟨by decide, by decide, by decide, by decide⟩

end ObjTree

end ZWalker
